import Mathlib

/-!
# USB relay firmware: command protocol and device-control logic

A shallow embedding of `Core/Src/cmd_process.c` and `Core/Inc/cmd_process.h`.

* Bytes, counters and registers are natural numbers; a reduction modulo `2 ^ w`
  is written wherever the C arithmetic can leave the range of its type.
* The global `cmdData`, the two function-local statics (`servoMode` of `CmdParse`,
  `cmdFound` of `CmdExtractCmd`) and the TIM2 registers the module touches are
  the fields of one record, `Device`, passed explicitly.
* The readings of the external collaborators (`HAL_GetTick`, `HAL_GPIO_ReadPin`)
  are the fields of `Env`, one reading per call of an entry point.
* An access outside a fixed-size array is undefined behaviour in C; the
  functions that index `cmdBuf` or `txBuf` return `none` there.
* Two ghost fields observe what the code does to its surroundings: `parsed`
  records every invocation of `CmdParse` (opcode byte and parsed argument),
  `sent` records every buffer handed to `CDC_Transmit_FS`.
* The running device is a sequence of calls of the four entry points
  (`Event`), executed by `exec` from the state `CmdParserInit` leaves.
-/

namespace UsbRelay

/-! ## Constants of `cmd_process.h` -/

/-- Size of command buffer. -/
abbrev CMD_BUF_SIZE : Nat := 10
/-- Size of the output buffer. -/
abbrev TX_BUF_SIZE : Nat := 10
/-- Symbol to identify the beginning of a command, the byte `'#'`. -/
abbrev CMD_START : Nat := 35
/-- Symbol to identify the end of a command, the byte `'!'`. -/
abbrev CMD_END : Nat := 33
/-- Symbol to identify the end of the Tx message, the byte `'~'`. -/
abbrev TX_DELIM : Nat := 126
/-- Delay between receiving the command and the output of the result. -/
abbrev TX_DELAY : Nat := 10
/-- Prescaler of the PWM timebase. -/
abbrev TRIGGER_TIMER_PSC : Nat := 20
/-- Resolution of the PWM duty cycle. -/
abbrev TRIGGER_TIMER_ARR : Nat := 100
/-- Debounce time. -/
abbrev DEBOUNCE_TIME : Nat := 50
/-- Integration time of the tach window. -/
abbrev RPM_INTEGRATION_TM : Nat := 1000
/-- Pulses per revolution. -/
abbrev RPM_PULSE_REV : Nat := 2

/-- Number of values of the 32-bit tick counter and of a `uint32_t`. -/
abbrev U32 : Nat := 4294967296
/-- Number of values of a `uint16_t`. -/
abbrev U16 : Nat := 65536

/-! ## Data model -/

/-- The enumeration `ButtonCtrl`. -/
inductive ButtonCtrl where
  | RELEASED
  | PRESS_START
  | PRESSED
  | RELEASE_START
deriving DecidableEq

/-- One reading of the external collaborators: `tick` is `HAL_GetTick()`,
`manSw` says that `HAL_GPIO_ReadPin(MAN_SW)` is `GPIO_PIN_SET`, `tach` says
that `HAL_GPIO_ReadPin(TACH)` is `GPIO_PIN_SET`. -/
structure Env where
  tick : Nat
  manSw : Bool
  tach : Bool
deriving DecidableEq

/-- The state the module owns. The fields `cmdBuf` to `lastOnState` are those of
`cmd_Parser_Data_Def` (the global `cmdData`); `servoMode` and `cmdFound` are the
function-local statics; `CCR1`, `PSC`, `ARR`, `CNT`, `SR` are the TIM2
registers, `CEN` the bit `TIM_CR1_CEN` of `TIM2->CR1` and `CC1P` the bit
`TIM_CCER_CC1P` of `TIM2->CCER` (set: active low); `parsed` and `sent` are
ghost fields. -/
structure Device where
  cmdBuf : List Nat
  lenCmdBuf : Nat
  txBuf : List Nat
  lenTxBuf : Nat
  sendTxBuf : Nat
  sendTxBufStart : Nat
  pulseOn : Nat
  pulseStop : Nat
  buttonState : ButtonCtrl
  debounceStop : Nat
  rpmPluses : Nat
  rpmMinute : Nat
  rpmNextCalc : Nat
  lastOnState : Nat
  servoMode : Nat
  cmdFound : Nat
  CCR1 : Nat
  PSC : Nat
  ARR : Nat
  CNT : Nat
  SR : Nat
  CEN : Bool
  CC1P : Bool
  parsed : List (Nat × Nat)
  sent : List (List Nat)
deriving DecidableEq

/-! ## Initialisation -/

/-- The state after `SetupTIM2()` and `CmdParserInit()` at tick `tick`, the
statics zero-initialised and nothing observed yet. -/
def CmdParserInit (tick : Nat) : Device where
  cmdBuf := List.replicate CMD_BUF_SIZE 0
  lenCmdBuf := 0
  txBuf := List.replicate TX_BUF_SIZE 0
  lenTxBuf := 0
  sendTxBuf := 0
  sendTxBufStart := 0
  pulseOn := 0
  pulseStop := 0
  buttonState := ButtonCtrl.RELEASED
  debounceStop := 0
  rpmPluses := 0
  rpmMinute := 0
  rpmNextCalc := (tick + RPM_INTEGRATION_TM) % U32
  lastOnState := 100
  servoMode := 0
  cmdFound := 0
  CCR1 := 0
  PSC := TRIGGER_TIMER_PSC - 1
  ARR := TRIGGER_TIMER_ARR - 1
  CNT := 0
  SR := 0
  CEN := true
  CC1P := false
  parsed := []
  sent := []

/-! ## Numeric codec -/

/-- The loop of `AsciiToNumber` over the bytes `alfa[i..len)`, with the
`uint32_t` accumulator `number`; after the last byte the saturation to 65535. -/
def AsciiToNumber.loop : List Nat → Nat → Nat
  | [], number => if number > 65535 then 65535 else number
  | digit :: rest, number =>
    if digit < 48 ∨ digit > 57 then 0
    else AsciiToNumber.loop rest ((number * 10 + (digit - 48)) % U32)

/-- The function `AsciiToNumber(alfa, len)`; the list is `alfa[0..len)`. -/
def AsciiToNumber (alfa : List Nat) : Nat :=
  if alfa.length < 1 then 0 else AsciiToNumber.loop alfa 0

/-- The `while (number > 0)` loop of `NumberToAscii`: the digits of `number`,
least significant first, written from index `i` on. -/
def NumberToAscii.digits (number i : Nat) (txBuf : List Nat) : Option (Nat × List Nat) :=
  if h : 0 < number then
    if i < TX_BUF_SIZE then
      NumberToAscii.digits (number / 10) (i + 1) (txBuf.set i (number % 10 + 48))
    else none
  else some (i, txBuf)
termination_by number
decreasing_by exact Nat.div_lt_self h (by decide)

/-- The reversal loop of `NumberToAscii`: for `j` from 0 below `i / 2`, swap
`txBuf[j]` and `txBuf[i - j - 1]`. -/
def NumberToAscii.reverse (i : Nat) (txBuf : List Nat) : List Nat :=
  (List.range (i / 2)).foldl
    (fun tx j =>
      let temp := tx.getD j 0
      (tx.set j (tx.getD (i - j - 1) 0)).set (i - j - 1) temp)
    txBuf

/-- The function `NumberToAscii(number)` called at tick `tick`. -/
def NumberToAscii (tick number : Nat) (s : Device) : Option Device :=
  let written : Option (Nat × List Nat) :=
    if number = 0 then some (1, s.txBuf.set 0 48)
    else NumberToAscii.digits number 0 s.txBuf
  match written with
  | none => none
  | some (i, txBuf) =>
    let txBuf := NumberToAscii.reverse i txBuf
    if i < TX_BUF_SIZE then
      some { s with
        txBuf := txBuf.set i TX_DELIM
        lenTxBuf := i + 1
        sendTxBufStart := (tick + TX_DELAY) % U32
        sendTxBuf := 1 }
    else none

/-! ## Tach, button and periodic tick -/

/-- The function `TachIncrement()`. -/
def TachIncrement (s : Device) : Device :=
  { s with rpmPluses := (s.rpmPluses + 1) % U32 }

/-- The function `CheckButton()`. -/
def CheckButton (env : Env) (s : Device) : Device :=
  let s :=
    if env.manSw = true ∧ s.buttonState = ButtonCtrl.RELEASED then
      let s :=
        if s.CCR1 > 0 then { s with lastOnState := s.CCR1 % U16, CCR1 := 0 }
        else { s with CCR1 := s.lastOnState }
      { s with
        buttonState := ButtonCtrl.PRESS_START
        debounceStop := (env.tick + DEBOUNCE_TIME) % U32 }
    else s
  if env.manSw = false ∧ s.buttonState = ButtonCtrl.PRESSED then
    { s with
      buttonState := ButtonCtrl.RELEASE_START
      debounceStop := (env.tick + DEBOUNCE_TIME) % U32 }
  else s

/-- The function `CheckDelays()`. -/
def CheckDelays (env : Env) (s : Device) : Device :=
  let s :=
    if s.buttonState = ButtonCtrl.PRESS_START ∧ env.tick ≥ s.debounceStop then
      { s with buttonState := ButtonCtrl.PRESSED }
    else s
  let s :=
    if s.buttonState = ButtonCtrl.RELEASE_START ∧ env.tick ≥ s.debounceStop then
      { s with buttonState := ButtonCtrl.RELEASED }
    else s
  let s :=
    if s.pulseOn = 1 ∧ env.tick ≥ s.pulseStop then
      { s with pulseOn := 0, CCR1 := 0 }
    else s
  let s :=
    if s.sendTxBuf = 1 ∧ env.tick ≥ s.sendTxBufStart then
      { s with sendTxBuf := 0, sent := s.sent ++ [s.txBuf.take s.lenTxBuf] }
    else s
  if env.tick ≥ s.rpmNextCalc then
    { s with
      rpmMinute :=
        (s.rpmPluses * ((10000 / RPM_INTEGRATION_TM) * (6 / RPM_PULSE_REV))) % U16
      rpmNextCalc := (env.tick + RPM_INTEGRATION_TM) % U32
      rpmPluses := 0 }
  else s

/-! ## Command dispatcher -/

/-- The opcode `CmdParse()` dispatches on, `cmdData.cmdBuf[0]`. -/
def opcode (s : Device) : Nat := s.cmdBuf.getD 0 0

/-- The first statement of `CmdParse()`: in servo mode the opcodes `'S'` 83,
`'P'` 80, `'F'` 70, `'W'` 87 and `'Z'` 90 put TIM2 back to its default values
and leave servo mode. -/
def CmdParse.servoExit (s : Device) : Device :=
  if s.servoMode = 1 ∧ (opcode s = 83 ∨ opcode s = 80 ∨ opcode s = 70 ∨ opcode s = 87
      ∨ opcode s = 90) then
    { s with
      CCR1 := 0
      CNT := 0
      SR := 0
      PSC := TRIGGER_TIMER_PSC - 1
      ARR := TRIGGER_TIMER_ARR - 1
      CC1P := false
      CEN := true
      servoMode := 0 }
  else s

/-- The `switch (cmdData.cmdBuf[0])` of `CmdParse()`, entered with the
converted value `asciiValue`. The further opcodes are `'I'` 73, `'T'` 84,
`'O'` 79 and `'A'` 65. -/
def CmdParse.switch (env : Env) (asciiValue : Nat) (s : Device) : Option Device :=
  if opcode s = 83 then
    let asciiValue := if asciiValue > 1 then 1 else asciiValue
    some { s with CC1P := false, CCR1 := asciiValue * 100 }
  else if opcode s = 80 then
    let asciiValue := if asciiValue > 36000 then 36000 else asciiValue
    let asciiValue := if asciiValue < 1 then 1 else asciiValue
    some { s with
      CC1P := false
      CCR1 := 100
      pulseOn := 1
      pulseStop := (env.tick + asciiValue * 100) % U32 }
  else if opcode s = 70 then
    let asciiValue := if asciiValue > 100 then 100 else asciiValue
    some { s with CC1P := true, CCR1 := asciiValue }
  else if opcode s = 87 then
    let asciiValue := if asciiValue > 100 then 100 else asciiValue
    some { s with CC1P := false, CCR1 := asciiValue }
  else if opcode s = 73 then
    NumberToAscii env.tick (if env.tach then 1 else 0) s
  else if opcode s = 84 then
    NumberToAscii env.tick s.rpmMinute s
  else if opcode s = 79 then
    NumberToAscii env.tick s.CCR1 s
  else if opcode s = 90 then
    let asciiValue := if asciiValue > 50000 then 50000 else asciiValue
    let asciiValue := if asciiValue < 10 then 10 else asciiValue
    some { s with PSC := 480000 / asciiValue - 1, CEN := true }
  else if opcode s = 65 then
    let s :=
      if s.servoMode = 0 then
        { s with
          CCR1 := 0
          CNT := 0
          SR := 0
          PSC := 960 - 1
          ARR := 1000 - 1
          CC1P := true
          CEN := true
          servoMode := 1 }
      else s
    let asciiValue := if asciiValue > 200 then 200 else asciiValue
    some { s with CCR1 := asciiValue }
  else some s

/-- The value `CmdParse()` converts: `AsciiToNumber(&cmdBuf[1], lenCmdBuf - 1)`
when `lenCmdBuf > 1`, else 0. -/
def argument (s : Device) : Nat :=
  if s.lenCmdBuf > 1 then AsciiToNumber ((s.cmdBuf.drop 1).take (s.lenCmdBuf - 1))
  else 0

/-- The function `CmdParse()`: the servo exit, the conversion of the digits
after the opcode (reading `cmdBuf[1..lenCmdBuf)`, inside the buffer only when
`lenCmdBuf ≤ CMD_BUF_SIZE`), the ghost record of the invocation, the switch. -/
def CmdParse (env : Env) (s : Device) : Option Device :=
  let s := CmdParse.servoExit s
  if s.lenCmdBuf > CMD_BUF_SIZE then none
  else
    let asciiValue := argument s
    let s := { s with parsed := s.parsed ++ [(opcode s, asciiValue)] }
    CmdParse.switch env asciiValue s

/-! ## Frame extractor -/

/-- The body of the loop of `CmdExtractCmd` for the byte `b = rxBufUSB[i]`. -/
def CmdExtractCmd.byte (env : Env) (b : Nat) (s : Device) : Option Device :=
  let dispatched : Option Device :=
    if b = CMD_END ∧ s.cmdFound = 1 then
      (CmdParse env s).map fun s => { s with cmdFound := 0 }
    else some s
  match dispatched with
  | none => none
  | some s =>
    let s :=
      if s.lenCmdBuf = CMD_BUF_SIZE then { s with cmdFound := 0, lenCmdBuf := 0 }
      else s
    let stored : Option Device :=
      if s.cmdFound = 1 then
        if s.lenCmdBuf < CMD_BUF_SIZE then
          some { s with cmdBuf := s.cmdBuf.set s.lenCmdBuf b, lenCmdBuf := s.lenCmdBuf + 1 }
        else none
      else some s
    match stored with
    | none => none
    | some s =>
      if b = CMD_START then some { s with lenCmdBuf := 0, cmdFound := 1 }
      else some s

/-- The function `CmdExtractCmd(rxBufUSB, lenRxBufUSB)`; the list is
`rxBufUSB[0..*lenRxBufUSB)`. -/
def CmdExtractCmd (env : Env) : List Nat → Device → Option Device
  | [], s => some s
  | b :: rest, s =>
    match CmdExtractCmd.byte env b s with
    | none => none
    | some s => CmdExtractCmd env rest s

/-- The transport delivering the stream in chunks: one call of `CmdExtractCmd`
per chunk, each with its own reading of the collaborators. -/
def feed : List (Env × List Nat) → Device → Option Device
  | [], s => some s
  | c :: rest, s =>
    match CmdExtractCmd c.1 c.2 s with
    | none => none
    | some s => feed rest s

/-- The bytes of a chunked stream, in order. -/
def streamOf (chunks : List (Env × List Nat)) : List Nat :=
  (chunks.map Prod.snd).flatten

/-! ## Specification-level notions -/

/-- Execution of the extractor byte by byte, every byte with the reading of
the collaborators of the call that delivers it. -/
def run : List (Env × Nat) → Device → Option Device
  | [], s => some s
  | eb :: rest, s =>
    match CmdExtractCmd.byte eb.1 eb.2 s with
    | none => none
    | some s => run rest s

/-- The bytes of a chunked stream, each with the reading of its chunk. -/
def tagged : List (Env × List Nat) → List (Env × Nat)
  | [] => []
  | c :: rest => c.2.map (fun b => (c.1, b)) ++ tagged rest

/-- Well-formed device states: the buffers have their declared sizes, the
buffered length is within the capacity, `rpmMinute` is a `uint16_t`, and the
duty register holds a value of at most nine decimal digits (a larger one does
not fit the response buffer of the `O` command). -/
def Device.valid (s : Device) : Prop :=
  s.cmdBuf.length = CMD_BUF_SIZE ∧ s.txBuf.length = TX_BUF_SIZE
    ∧ s.lenCmdBuf ≤ CMD_BUF_SIZE ∧ s.rpmMinute < U16 ∧ s.CCR1 < 10 ^ 9

instance (s : Device) : Decidable s.valid := by
  unfold Device.valid; infer_instance

/-- The default values of TIM2 that `CmdParse` re-applies when it leaves servo
mode: duty 0, counter and status cleared, prescaler `TRIGGER_TIMER_PSC - 1`,
auto-reload `TRIGGER_TIMER_ARR - 1`, polarity active high, timer enabled, mode
Normal. -/
def normalDefaults (s : Device) : Device :=
  { s with
    CCR1 := 0
    CNT := 0
    SR := 0
    PSC := TRIGGER_TIMER_PSC - 1
    ARR := TRIGGER_TIMER_ARR - 1
    CC1P := false
    CEN := true
    servoMode := 0 }

/-- A sequence of periodic ticks: one call of `CheckDelays` per reading. -/
def ticks (es : List Env) (s : Device) : Device :=
  es.foldl (fun x e => CheckDelays e x) s

/-- Every byte is one of `'0'..'9'`. -/
def allDigits (alfa : List Nat) : Prop := ∀ d ∈ alfa, 48 ≤ d ∧ d ≤ 57

instance (alfa : List Nat) : Decidable (allDigits alfa) := by
  unfold allDigits; infer_instance

/-- The decimal value of a digit string, most significant digit first, as an
unbounded natural number, continuing from the value `v`. -/
def decimalFrom (v : Nat) (alfa : List Nat) : Nat :=
  alfa.foldl (fun v d => v * 10 + (d - 48)) v

/-- The decimal value of a digit string, most significant digit first, as an
unbounded natural number. -/
def decimalValue (alfa : List Nat) : Nat := decimalFrom 0 alfa

/-- The decimal rendering of `n`: most significant digit first, no leading
zero, the single digit `'0'` for zero. -/
def decimalDigits (n : Nat) : List Nat :=
  if n = 0 then [48] else (Nat.digits 10 n).reverse.map (fun d => d + 48)

/-- The bytes `CmdParse()` converts when `lenCmdBuf > 1`: `cmdBuf[1..lenCmdBuf)`. -/
def argBytes (s : Device) : List Nat := (s.cmdBuf.drop 1).take (s.lenCmdBuf - 1)

/-- One call of an entry point of the module: the transport delivering bytes
to `CmdExtractCmd`, the main loop calling `CheckDelays` or `CheckButton`, the
tach interrupt calling `TachIncrement`. -/
inductive Event where
  | rx (env : Env) (bytes : List Nat)
  | tick (env : Env)
  | button (env : Env)
  | tach
deriving DecidableEq

/-- The effect of one call of an entry point. -/
def Event.apply : Event → Device → Option Device
  | Event.rx env bytes, s => CmdExtractCmd env bytes s
  | Event.tick env, s => some (CheckDelays env s)
  | Event.button env, s => some (CheckButton env s)
  | Event.tach, s => some (TachIncrement s)

/-- The effect of a sequence of calls of entry points. -/
def exec : List Event → Device → Option Device
  | [], s => some s
  | ev :: rest, s =>
    match ev.apply s with
    | none => none
    | some s => exec rest s

/-- The invariant of the running device: a well-formed state whose duty is at
most 200, whose remembered on-state is between 1 and 200 and whose response
length is at most five digits and the terminator. -/
def Device.safe (s : Device) : Prop :=
  s.valid ∧ s.CCR1 ≤ 200 ∧ 1 ≤ s.lastOnState ∧ s.lastOnState ≤ 200 ∧ s.lenTxBuf ≤ 6

instance (s : Device) : Decidable s.safe := by
  unfold Device.safe; infer_instance

/-- The value a query opcode reports: the tach pin level for `'I'` 73, the
last rate for `'T'` 84, the duty otherwise (`'O'` 79). -/
def queryValue (env : Env) (q : Nat) (s : Device) : Nat :=
  if q = 73 then (if env.tach then 1 else 0)
  else if q = 84 then s.rpmMinute
  else s.CCR1

/-- A call of `CheckButton` or of `CheckDelays` at a time in `[lo, hi)`. -/
def Event.buttonOrTickIn (lo hi : Nat) : Event → Prop
  | Event.tick e => lo ≤ e.tick ∧ e.tick < hi
  | Event.button e => lo ≤ e.tick ∧ e.tick < hi
  | _ => False

/-- The readings of the `CheckDelays` calls of a sequence of calls. -/
def tickEnvs : List Event → List Env
  | [] => []
  | Event.tick e :: rest => e :: tickEnvs rest
  | _ :: rest => tickEnvs rest

/-- The debounce branches of `CheckDelays`, its first two statements. -/
def CheckDelays.button (env : Env) (s : Device) : Device :=
  let s :=
    if s.buttonState = ButtonCtrl.PRESS_START ∧ env.tick ≥ s.debounceStop then
      { s with buttonState := ButtonCtrl.PRESSED }
    else s
  if s.buttonState = ButtonCtrl.RELEASE_START ∧ env.tick ≥ s.debounceStop then
    { s with buttonState := ButtonCtrl.RELEASED }
  else s

/-- The pulse branch of `CheckDelays`, its third statement. -/
def CheckDelays.pulse (env : Env) (s : Device) : Device :=
  if s.pulseOn = 1 ∧ env.tick ≥ s.pulseStop then
    { s with pulseOn := 0, CCR1 := 0 }
  else s

/-- The response branch of `CheckDelays`, its fourth statement. -/
def CheckDelays.tx (env : Env) (s : Device) : Device :=
  if s.sendTxBuf = 1 ∧ env.tick ≥ s.sendTxBufStart then
    { s with sendTxBuf := 0, sent := s.sent ++ [s.txBuf.take s.lenTxBuf] }
  else s

/-- The tach branch of `CheckDelays`, its last statement. -/
def CheckDelays.tach (env : Env) (s : Device) : Device :=
  if env.tick ≥ s.rpmNextCalc then
    { s with
      rpmMinute :=
        (s.rpmPluses * ((10000 / RPM_INTEGRATION_TM) * (6 / RPM_PULSE_REV))) % U16
      rpmNextCalc := (env.tick + RPM_INTEGRATION_TM) % U32
      rpmPluses := 0 }
  else s

/-- The loop body of `CmdExtractCmd` after its first statement (the dispatch):
the reset at capacity, the store of the byte, the start delimiter. -/
def CmdExtractCmd.afterDispatch (b : Nat) (s : Device) : Option Device :=
  let s :=
    if s.lenCmdBuf = CMD_BUF_SIZE then { s with cmdFound := 0, lenCmdBuf := 0 }
    else s
  let stored : Option Device :=
    if s.cmdFound = 1 then
      if s.lenCmdBuf < CMD_BUF_SIZE then
        some { s with cmdBuf := s.cmdBuf.set s.lenCmdBuf b, lenCmdBuf := s.lenCmdBuf + 1 }
      else none
    else some s
  match stored with
  | none => none
  | some s =>
    if b = CMD_START then some { s with lenCmdBuf := 0, cmdFound := 1 }
    else some s

/-! ## Numeric codec: parsing -/

theorem AsciiToNumber.loop_nondigit (alfa : List Nat) (number : Nat)
    (h : ¬ allDigits alfa) : AsciiToNumber.loop alfa number = 0 := by
  induction alfa generalizing number with
  | nil => exact absurd (fun d hd => by simp at hd) h
  | cons d rest ih =>
    unfold AsciiToNumber.loop
    by_cases hd : d < 48 ∨ d > 57
    · simp [hd]
    · rw [if_neg hd]
      apply ih
      intro hrest
      apply h
      intro x hx
      rcases List.mem_cons.mp hx with rfl | hx
      · omega
      · exact hrest x hx

theorem decimalFrom_modEq (alfa : List Nat) (v w : Nat) (h : v % U32 = w % U32) :
    decimalFrom v alfa % U32 = decimalFrom w alfa % U32 := by
  induction alfa generalizing v w with
  | nil => simpa [decimalFrom] using h
  | cons d rest ih =>
    have step : (v * 10 + (d - 48)) % U32 = (w * 10 + (d - 48)) % U32 := by
      have := Nat.ModEq.add_right (d - 48) (Nat.ModEq.mul_right 10 h)
      exact this
    exact ih _ _ step

theorem AsciiToNumber.loop_digits (alfa : List Nat) (number : Nat)
    (hn : number < U32) (h : allDigits alfa) :
    AsciiToNumber.loop alfa number = min (decimalFrom number alfa % U32) 65535 := by
  induction alfa generalizing number with
  | nil =>
    have e : number % U32 = number := Nat.mod_eq_of_lt hn
    simp only [AsciiToNumber.loop, decimalFrom, List.foldl_nil, e]
    split <;> omega
  | cons d rest ih =>
    have hd : ¬ (d < 48 ∨ d > 57) := by
      have := h d (List.mem_cons_self _ _); omega
    have hrest : allDigits rest := fun x hx => h x (List.mem_cons_of_mem _ hx)
    unfold AsciiToNumber.loop
    rw [if_neg hd, ih _ (Nat.mod_lt _ (by decide)) hrest]
    congr 1
    have := decimalFrom_modEq rest ((number * 10 + (d - 48)) % U32) (number * 10 + (d - 48))
      (Nat.mod_mod _ _)
    simpa [decimalFrom] using this

theorem decimalFrom_lt (alfa : List Nat) (v : Nat) (h : allDigits alfa) :
    decimalFrom v alfa < (v + 1) * 10 ^ alfa.length := by
  induction alfa generalizing v with
  | nil => simp [decimalFrom]
  | cons d rest ih =>
    have hd := h d (List.mem_cons_self _ _)
    have hrest : allDigits rest := fun x hx => h x (List.mem_cons_of_mem _ hx)
    have step := ih (v * 10 + (d - 48)) hrest
    have bound : (v * 10 + (d - 48) + 1) * 10 ^ rest.length
        ≤ (v + 1) * 10 ^ (rest.length + 1) := by
      rw [pow_succ, ← Nat.mul_assoc, Nat.mul_right_comm]
      apply Nat.mul_le_mul_right
      omega
    calc decimalFrom v (d :: rest) = decimalFrom (v * 10 + (d - 48)) rest := rfl
      _ < (v * 10 + (d - 48) + 1) * 10 ^ rest.length := step
      _ ≤ (v + 1) * 10 ^ (d :: rest).length := by simpa using bound

theorem AsciiToNumber_digits (alfa : List Nat) (hne : alfa ≠ []) (h : allDigits alfa) :
    AsciiToNumber alfa = min (decimalValue alfa % U32) 65535 := by
  have hl : ¬ alfa.length < 1 := by
    cases alfa with
    | nil => exact absurd rfl hne
    | cons _ _ => simp
  unfold AsciiToNumber
  rw [if_neg hl]
  exact AsciiToNumber.loop_digits alfa 0 (by decide) h

theorem decimalValue_lt_U32 (alfa : List Nat) (h : allDigits alfa) (hl : alfa.length ≤ 9) :
    decimalValue alfa < U32 := by
  have h1 := decimalFrom_lt alfa 0 h
  have h2 : 10 ^ alfa.length ≤ 10 ^ 9 := Nat.pow_le_pow_right (by decide) hl
  have h3 : (10 : Nat) ^ 9 < U32 := by decide
  unfold decimalValue
  omega

/-- C4 (as amended). `AsciiToNumber` returns 0 for the empty sequence and for
a sequence with a byte outside `'0'..'9'`; for a non-empty digit sequence of
decimal value `v` it returns `min (v mod 2^32) 65535`, because the accumulator
is a `uint32_t`; no wraparound occurs for at most 9 digits, where the result
is `min v 65535`. -/
theorem AsciiToNumber_spec (alfa : List Nat) :
    AsciiToNumber alfa
        = (if alfa = [] ∨ ¬ allDigits alfa then 0 else min (decimalValue alfa % U32) 65535)
      ∧ (alfa.length ≤ 9 →
          AsciiToNumber alfa
            = (if alfa = [] ∨ ¬ allDigits alfa then 0 else min (decimalValue alfa) 65535)) := by
  have main : AsciiToNumber alfa
      = (if alfa = [] ∨ ¬ allDigits alfa then 0 else min (decimalValue alfa % U32) 65535) := by
    by_cases hc : alfa = [] ∨ ¬ allDigits alfa
    · rw [if_pos hc]
      rcases hc with rfl | hd
      · rfl
      · unfold AsciiToNumber
        split
        · rfl
        · exact AsciiToNumber.loop_nondigit alfa 0 hd
    · rw [if_neg hc]
      have hne : alfa ≠ [] := fun e => hc (Or.inl e)
      have hd : allDigits alfa := by
        by_contra hd
        exact hc (Or.inr hd)
      exact AsciiToNumber_digits alfa hne hd
  refine ⟨main, fun hl => ?_⟩
  rw [main]
  by_cases hc : alfa = [] ∨ ¬ allDigits alfa
  · rw [if_pos hc, if_pos hc]
  · rw [if_neg hc, if_neg hc]
    have hd : allDigits alfa := by
      by_contra hd
      exact hc (Or.inr hd)
    rw [Nat.mod_eq_of_lt (decimalValue_lt_U32 alfa hd hl)]

/-- Witness of `AsciiToNumber_spec`: the digit string `"70000"`. -/
theorem AsciiToNumber_spec_witness :
    [55, 48, 48, 48, 48].length ≤ 9
      ∧ AsciiToNumber [55, 48, 48, 48, 48]
          = (if [55, 48, 48, 48, 48] = [] ∨ ¬ allDigits [55, 48, 48, 48, 48] then 0
              else min (decimalValue [55, 48, 48, 48, 48]) 65535) :=
  ⟨by decide, (AsciiToNumber_spec [55, 48, 48, 48, 48]).2 (by decide)⟩

/-- C4 (counterexample). The ten digits `"4294967296"` have decimal value
`2^32`; the accumulator wraps to 0 and `AsciiToNumber` returns 0, not 65535. -/
theorem AsciiToNumber_saturation_counterexample :
    allDigits [52, 50, 57, 52, 57, 54, 55, 50, 57, 54]
      ∧ [52, 50, 57, 52, 57, 54, 55, 50, 57, 54].length ≤ 255
      ∧ decimalValue [52, 50, 57, 52, 57, 54, 55, 50, 57, 54] = 4294967296
      ∧ AsciiToNumber [52, 50, 57, 52, 57, 54, 55, 50, 57, 54] = 0
      ∧ AsciiToNumber [52, 50, 57, 52, 57, 54, 55, 50, 57, 54]
          ≠ min (decimalValue [52, 50, 57, 52, 57, 54, 55, 50, 57, 54]) 65535 := by
  decide

/-! ## Numeric codec: formatting -/

theorem take_succ_set (l : List Nat) (i c : Nat) (h : i < l.length) :
    (l.set i c).take (i + 1) = l.take i ++ [c] := by
  induction l generalizing i with
  | nil => simp at h
  | cons a rest ih =>
    cases i with
    | zero => simp
    | succ j =>
      have hj : j < rest.length := by simpa using h
      simp [ih j hj]

theorem NumberToAscii.digits_zero (i : Nat) (txBuf : List Nat) :
    NumberToAscii.digits 0 i txBuf = some (i, txBuf) := by
  rw [NumberToAscii.digits]; simp

theorem NumberToAscii.digits_pos (number i : Nat) (txBuf : List Nat) (h : 0 < number)
    (hi : i < TX_BUF_SIZE) :
    NumberToAscii.digits number i txBuf
      = NumberToAscii.digits (number / 10) (i + 1) (txBuf.set i (number % 10 + 48)) := by
  rw [NumberToAscii.digits]; simp [h, hi]

/-- The digit loop writes the digits of `number`, least significant first,
at the indices `i, i+1, ...`, as long as they fit the buffer. -/
theorem NumberToAscii.digits_eq (number : Nat) :
    ∀ (i : Nat) (txBuf : List Nat), txBuf.length = TX_BUF_SIZE →
      i + (Nat.digits 10 number).length ≤ TX_BUF_SIZE →
      ∃ buf, NumberToAscii.digits number i txBuf
            = some (i + (Nat.digits 10 number).length, buf)
          ∧ buf.length = TX_BUF_SIZE
          ∧ buf.take (i + (Nat.digits 10 number).length)
              = txBuf.take i ++ (Nat.digits 10 number).map (fun d => d + 48) := by
  induction number using Nat.strong_induction_on with
  | _ number ih =>
    intro i txBuf hlen hfit
    rcases Nat.eq_zero_or_pos number with rfl | hpos
    · exact ⟨txBuf, by simp [NumberToAscii.digits_zero], hlen, by simp⟩
    · have hd : Nat.digits 10 number = number % 10 :: Nat.digits 10 (number / 10) :=
        Nat.digits_def' (by decide) hpos
      rw [hd] at hfit ⊢
      simp only [List.length_cons] at hfit ⊢
      have hi : i < TX_BUF_SIZE := by omega
      obtain ⟨buf, hrun, hblen, htake⟩ :=
        ih (number / 10) (Nat.div_lt_self hpos (by decide)) (i + 1)
          (txBuf.set i (number % 10 + 48)) (by simpa using hlen) (by omega)
      refine ⟨buf, ?_, hblen, ?_⟩
      · rw [NumberToAscii.digits_pos number i txBuf hpos hi, hrun]
        congr 2; omega
      · have e : i + ((Nat.digits 10 (number / 10)).length + 1)
            = i + 1 + (Nat.digits 10 (number / 10)).length := by omega
        rw [e, htake, take_succ_set txBuf i _ (by omega)]
        simp

theorem digits_length_le (k : Nat) :
    ∀ n : Nat, n < 10 ^ k → (Nat.digits 10 n).length ≤ k := by
  induction k with
  | zero =>
    intro n hn
    have : n = 0 := by simpa using hn
    subst this; simp
  | succ k ih =>
    intro n hn
    rcases Nat.eq_zero_or_pos n with rfl | hpos
    · simp
    · rw [Nat.digits_def' (by decide) hpos, List.length_cons]
      have : n / 10 < 10 ^ k := by
        rw [pow_succ] at hn
        exact Nat.div_lt_of_lt_mul (by omega)
      have := ih (n / 10) this
      omega

/-- The swap loop reverses the first `i` bytes of the buffer in place. -/
theorem NumberToAscii.reverse_eq (txBuf : List Nat) (hlen : txBuf.length = TX_BUF_SIZE)
    (i : Nat) (hi : i ≤ TX_BUF_SIZE) :
    NumberToAscii.reverse i txBuf = (txBuf.take i).reverse ++ txBuf.drop i := by
  match txBuf, hlen with
  | [a0, a1, a2, a3, a4, a5, a6, a7, a8, a9], _ =>
    interval_cases i <;> rfl

/-- What `NumberToAscii` does for a value of at most nine digits, in a state
whose response buffer has its declared size. -/
theorem NumberToAscii_eq (tick number : Nat) (s : Device)
    (hlen : s.txBuf.length = TX_BUF_SIZE) (hn : number < 10 ^ 9) :
    ∃ buf, buf.length = TX_BUF_SIZE
      ∧ buf.take ((decimalDigits number).length + 1) = decimalDigits number ++ [TX_DELIM]
      ∧ (decimalDigits number).length ≤ 9
      ∧ NumberToAscii tick number s
          = some { s with
              txBuf := buf
              lenTxBuf := (decimalDigits number).length + 1
              sendTxBufStart := (tick + TX_DELAY) % U32
              sendTxBuf := 1 } := by
  rcases Nat.eq_zero_or_pos number with rfl | hpos
  · match htx : s.txBuf, hlen with
    | [a0, a1, a2, a3, a4, a5, a6, a7, a8, a9], _ =>
      refine ⟨[48, TX_DELIM, a2, a3, a4, a5, a6, a7, a8, a9], rfl, rfl, by decide, ?_⟩
      simp [NumberToAscii, htx, NumberToAscii.reverse, decimalDigits]
  · have hne : number ≠ 0 := by omega
    have hk := digits_length_le 9 number hn
    obtain ⟨buf, hrun, hblen, htake⟩ :=
      NumberToAscii.digits_eq number 0 s.txBuf hlen
        (by simp only [TX_BUF_SIZE]; omega)
    simp only [Nat.zero_add, List.take_zero, List.nil_append] at hrun htake
    have hdd : decimalDigits number
        = ((Nat.digits 10 number).map (fun d => d + 48)).reverse := by
      simp [decimalDigits, hne, List.map_reverse]
    have hdl : (decimalDigits number).length = (Nat.digits 10 number).length := by
      simp [hdd]
    have hrev := NumberToAscii.reverse_eq buf hblen (Nat.digits 10 number).length
      (by simp only [TX_BUF_SIZE]; omega)
    have hrl : (NumberToAscii.reverse (Nat.digits 10 number).length buf).length = 10 := by
      rw [hrev]
      simp only [TX_BUF_SIZE] at hblen
      simp [hblen]
      omega
    refine ⟨(NumberToAscii.reverse (Nat.digits 10 number).length buf).set
        (Nat.digits 10 number).length TX_DELIM, by simp [hrl], ?_, by omega, ?_⟩
    · rw [hdl, take_succ_set _ _ _ (by omega), hrev, htake, hdd]
      simp
    · have hlt : (Nat.digits 10 number).length < TX_BUF_SIZE := by
        simp only [TX_BUF_SIZE]; omega
      simp [NumberToAscii, hne, hrun, hdl, hlt]

theorem take_of_take_succ (buf dd : List Nat) (c : Nat)
    (h : buf.take (dd.length + 1) = dd ++ [c]) : buf.take dd.length = dd := by
  have h1 : (buf.take (dd.length + 1)).take dd.length = buf.take dd.length := by
    rw [List.take_take]; congr 1; omega
  rw [← h1, h]
  simp

theorem decimalFrom_append (a b : List Nat) (v : Nat) :
    decimalFrom v (a ++ b) = decimalFrom (decimalFrom v a) b := by
  simp [decimalFrom, List.foldl_append]

theorem decimalValue_reverse_digits (L : List Nat) :
    decimalValue (L.reverse.map (fun d => d + 48)) = Nat.ofDigits 10 L := by
  induction L with
  | nil => rfl
  | cons d rest ih =>
    unfold decimalValue at ih ⊢
    rw [List.reverse_cons, List.map_append, decimalFrom_append, ih, Nat.ofDigits_cons]
    simp [decimalFrom]
    omega

theorem decimalDigits_ne_nil (n : Nat) : decimalDigits n ≠ [] := by
  unfold decimalDigits
  split
  · simp
  · rename_i h
    simp [Nat.digits_ne_nil_iff_ne_zero, h]

theorem allDigits_decimalDigits (n : Nat) : allDigits (decimalDigits n) := by
  unfold decimalDigits
  split
  · intro d hd
    have : d = 48 := by simpa using hd
    omega
  · intro d hd
    simp only [List.mem_map, List.mem_reverse] at hd
    obtain ⟨x, hx, rfl⟩ := hd
    have := Nat.digits_lt_base (by decide : 1 < 10) hx
    omega

theorem decimalValue_decimalDigits (n : Nat) : decimalValue (decimalDigits n) = n := by
  unfold decimalDigits
  split
  · rename_i h; subst h; rfl
  · rw [decimalValue_reverse_digits, Nat.ofDigits_digits]

theorem AsciiToNumber_decimalDigits (n : Nat) (hn : n ≤ 65535) :
    AsciiToNumber (decimalDigits n) = n := by
  rw [AsciiToNumber_digits _ (decimalDigits_ne_nil n) (allDigits_decimalDigits n),
    decimalValue_decimalDigits]
  simp only [U32]
  omega

/-- C5. For every `n` in `[0, 65535]`, in a state whose response buffer has
its declared size, `NumberToAscii n` succeeds, the bytes it leaves before the
`'~'` terminator parse back to `n` with `AsciiToNumber`. -/
theorem NumberToAscii_AsciiToNumber_roundtrip (tick n : Nat) (s : Device)
    (hlen : s.txBuf.length = TX_BUF_SIZE) (hn : n ≤ 65535) :
    ∃ s1, NumberToAscii tick n s = some s1
      ∧ s1.txBuf.take s1.lenTxBuf = s1.txBuf.take (s1.lenTxBuf - 1) ++ [TX_DELIM]
      ∧ AsciiToNumber (s1.txBuf.take (s1.lenTxBuf - 1)) = n := by
  obtain ⟨buf, _, htake, _, hrun⟩ := NumberToAscii_eq tick n s hlen (by omega)
  have hpre := take_of_take_succ buf (decimalDigits n) TX_DELIM htake
  refine ⟨_, hrun, ?_, ?_⟩
  · simp [htake, hpre]
  · simp [hpre, AsciiToNumber_decimalDigits n hn]

/-- Witness of `NumberToAscii_AsciiToNumber_roundtrip`: the value 65535 from
the initial state. -/
theorem NumberToAscii_AsciiToNumber_roundtrip_witness :
    ∃ s1, NumberToAscii 7 65535 (CmdParserInit 0) = some s1
      ∧ s1.txBuf.take s1.lenTxBuf = s1.txBuf.take (s1.lenTxBuf - 1) ++ [TX_DELIM]
      ∧ AsciiToNumber (s1.txBuf.take (s1.lenTxBuf - 1)) = 65535 :=
  NumberToAscii_AsciiToNumber_roundtrip 7 65535 (CmdParserInit 0) (by decide) (by decide)

/-- C6. For every `n ≤ 65535` and tick `t`, in a state whose response buffer
has its declared size, `NumberToAscii n` leaves in the response buffer the
decimal digits of `n`, most significant first and without leading zero,
followed by `'~'`; the response length is the number of digits plus one, the
response is armed, and the send time is `t + TX_DELAY` in the 32-bit
arithmetic of the tick counter (so `t + TX_DELAY` itself unless that exceeds
the counter). Nothing else of the state changes. -/
theorem NumberToAscii_spec (t n : Nat) (s : Device)
    (hlen : s.txBuf.length = TX_BUF_SIZE) (hn : n ≤ 65535) :
    ∃ s1, NumberToAscii t n s = some s1
      ∧ s1.txBuf.take s1.lenTxBuf = decimalDigits n ++ [TX_DELIM]
      ∧ s1.lenTxBuf = (decimalDigits n).length + 1
      ∧ s1.lenTxBuf ≤ TX_BUF_SIZE
      ∧ s1.txBuf.length = TX_BUF_SIZE
      ∧ s1.sendTxBuf = 1
      ∧ s1.sendTxBufStart = (t + TX_DELAY) % U32
      ∧ (t + TX_DELAY < U32 → s1.sendTxBufStart = t + TX_DELAY)
      ∧ s1 = { s with
          txBuf := s1.txBuf
          lenTxBuf := s1.lenTxBuf
          sendTxBuf := s1.sendTxBuf
          sendTxBufStart := s1.sendTxBufStart } := by
  obtain ⟨buf, hbl, htake, hk, hrun⟩ := NumberToAscii_eq t n s hlen (by omega)
  refine ⟨_, hrun, htake, rfl, ?_, hbl, rfl, rfl, ?_, rfl⟩
  · simp only [TX_BUF_SIZE]; omega
  · intro h
    exact Nat.mod_eq_of_lt h

/-- Witness of `NumberToAscii_spec`: the value 600 at tick 5 from the initial
state. -/
theorem NumberToAscii_spec_witness :
    ∃ s1, NumberToAscii 5 600 (CmdParserInit 0) = some s1
      ∧ s1.txBuf.take s1.lenTxBuf = decimalDigits 600 ++ [TX_DELIM]
      ∧ s1.lenTxBuf = (decimalDigits 600).length + 1
      ∧ s1.lenTxBuf ≤ TX_BUF_SIZE
      ∧ s1.txBuf.length = TX_BUF_SIZE
      ∧ s1.sendTxBuf = 1
      ∧ s1.sendTxBufStart = (5 + TX_DELAY) % U32
      ∧ (5 + TX_DELAY < U32 → s1.sendTxBufStart = 5 + TX_DELAY)
      ∧ s1 = { (CmdParserInit 0) with
          txBuf := s1.txBuf
          lenTxBuf := s1.lenTxBuf
          sendTxBuf := s1.sendTxBuf
          sendTxBufStart := s1.sendTxBufStart } :=
  NumberToAscii_spec 5 600 (CmdParserInit 0) (by decide) (by decide)

/-! ## Command dispatcher: general facts -/

theorem CmdParse.servoExit_cases (s : Device) :
    CmdParse.servoExit s = s
      ∨ CmdParse.servoExit s = { s with
          CCR1 := 0
          CNT := 0
          SR := 0
          PSC := TRIGGER_TIMER_PSC - 1
          ARR := TRIGGER_TIMER_ARR - 1
          CC1P := false
          CEN := true
          servoMode := 0 } := by
  unfold CmdParse.servoExit
  split
  · exact Or.inr rfl
  · exact Or.inl rfl

theorem CmdParse.servoExit_valid (s : Device) (hv : s.valid) :
    (CmdParse.servoExit s).valid := by
  obtain ⟨h1, h2, h3, h4, h5⟩ := hv
  rcases CmdParse.servoExit_cases s with e | e <;> rw [e]
  · exact ⟨h1, h2, h3, h4, h5⟩
  · exact ⟨h1, h2, h3, h4, by norm_num⟩

theorem CmdParse.servoExit_frame (s : Device) :
    (CmdParse.servoExit s).cmdBuf = s.cmdBuf
      ∧ (CmdParse.servoExit s).lenCmdBuf = s.lenCmdBuf
      ∧ (CmdParse.servoExit s).cmdFound = s.cmdFound
      ∧ (CmdParse.servoExit s).parsed = s.parsed
      ∧ (CmdParse.servoExit s).sent = s.sent := by
  rcases CmdParse.servoExit_cases s with e | e <;> rw [e] <;> simp

/-- In a well-formed state the switch of `CmdParse` returns; it leaves the
extractor's fields and the ghost fields alone and keeps the state well-formed. -/
theorem CmdParse.switch_valid (env : Env) (v : Nat) (s : Device) (hv : s.valid) :
    ∃ s1, CmdParse.switch env v s = some s1
      ∧ s1.valid
      ∧ s1.cmdBuf = s.cmdBuf ∧ s1.lenCmdBuf = s.lenCmdBuf ∧ s1.cmdFound = s.cmdFound
      ∧ s1.parsed = s.parsed
      ∧ s1.sent = s.sent := by
  obtain ⟨h1, h2, h3, h4, h5⟩ := hv
  have hnum : ∀ n, n < 10 ^ 9 → ∃ s1, NumberToAscii env.tick n s = some s1
      ∧ s1.valid
      ∧ s1.cmdBuf = s.cmdBuf ∧ s1.lenCmdBuf = s.lenCmdBuf ∧ s1.cmdFound = s.cmdFound
      ∧ s1.parsed = s.parsed
      ∧ s1.sent = s.sent := by
    intro n hn
    obtain ⟨buf, hbl, _, _, hrun⟩ := NumberToAscii_eq env.tick n s h2 hn
    exact ⟨_, hrun, ⟨h1, hbl, h3, h4, h5⟩, rfl, rfl, rfl, rfl, rfl⟩
  unfold CmdParse.switch
  by_cases c83 : opcode s = 83
  · rw [if_pos c83]
    refine ⟨_, rfl, ⟨h1, h2, h3, h4, ?_⟩, rfl, rfl, rfl, rfl, rfl⟩
    show (if v > 1 then 1 else v) * 100 < 10 ^ 9
    split <;> omega
  rw [if_neg c83]
  by_cases c80 : opcode s = 80
  · rw [if_pos c80]
    exact ⟨_, rfl, ⟨h1, h2, h3, h4, by norm_num⟩, rfl, rfl, rfl, rfl, rfl⟩
  rw [if_neg c80]
  by_cases c70 : opcode s = 70
  · rw [if_pos c70]
    refine ⟨_, rfl, ⟨h1, h2, h3, h4, ?_⟩, rfl, rfl, rfl, rfl, rfl⟩
    show (if v > 100 then 100 else v) < 10 ^ 9
    split <;> omega
  rw [if_neg c70]
  by_cases c87 : opcode s = 87
  · rw [if_pos c87]
    refine ⟨_, rfl, ⟨h1, h2, h3, h4, ?_⟩, rfl, rfl, rfl, rfl, rfl⟩
    show (if v > 100 then 100 else v) < 10 ^ 9
    split <;> omega
  rw [if_neg c87]
  by_cases c73 : opcode s = 73
  · rw [if_pos c73]
    exact hnum _ (by split <;> norm_num)
  rw [if_neg c73]
  by_cases c84 : opcode s = 84
  · rw [if_pos c84]
    exact hnum _ (by simp only [U16] at h4; omega)
  rw [if_neg c84]
  by_cases c79 : opcode s = 79
  · rw [if_pos c79]
    exact hnum _ h5
  rw [if_neg c79]
  by_cases c90 : opcode s = 90
  · rw [if_pos c90]
    exact ⟨_, rfl, ⟨h1, h2, h3, h4, h5⟩, rfl, rfl, rfl, rfl, rfl⟩
  rw [if_neg c90]
  by_cases c65 : opcode s = 65
  · rw [if_pos c65]
    refine ⟨_, rfl, ⟨?_, ?_, ?_, ?_, ?_⟩, ?_, ?_, ?_, ?_, ?_⟩
    · show (if s.servoMode = 0 then _ else s).cmdBuf.length = CMD_BUF_SIZE
      split <;> exact h1
    · show (if s.servoMode = 0 then _ else s).txBuf.length = TX_BUF_SIZE
      split <;> exact h2
    · show (if s.servoMode = 0 then _ else s).lenCmdBuf ≤ CMD_BUF_SIZE
      split <;> exact h3
    · show (if s.servoMode = 0 then _ else s).rpmMinute < U16
      split <;> exact h4
    · show (if v > 200 then 200 else v) < 10 ^ 9
      split <;> omega
    · show (if s.servoMode = 0 then _ else s).cmdBuf = s.cmdBuf
      split <;> rfl
    · show (if s.servoMode = 0 then _ else s).lenCmdBuf = s.lenCmdBuf
      split <;> rfl
    · show (if s.servoMode = 0 then _ else s).cmdFound = s.cmdFound
      split <;> rfl
    · show (if s.servoMode = 0 then _ else s).parsed = s.parsed
      split <;> rfl
    · show (if s.servoMode = 0 then _ else s).sent = s.sent
      split <;> rfl
  rw [if_neg c65]
  exact ⟨_, rfl, ⟨h1, h2, h3, h4, h5⟩, rfl, rfl, rfl, rfl, rfl⟩

/-- In a well-formed state `CmdParse` returns; it leaves the extractor's
fields alone, records its invocation, transmits nothing and keeps the state
well-formed. -/
theorem CmdParse_valid (env : Env) (s : Device) (hv : s.valid) :
    ∃ s1, CmdParse env s = some s1
      ∧ s1.valid
      ∧ s1.cmdBuf = s.cmdBuf ∧ s1.lenCmdBuf = s.lenCmdBuf ∧ s1.cmdFound = s.cmdFound
      ∧ s1.parsed = s.parsed ++ [(opcode s, argument s)]
      ∧ s1.sent = s.sent := by
  have hv1 := CmdParse.servoExit_valid s hv
  obtain ⟨f1, f2, f3, f4, f5⟩ := CmdParse.servoExit_frame s
  have hg : ¬ (CmdParse.servoExit s).lenCmdBuf > CMD_BUF_SIZE := by
    have := hv1.2.2.1; omega
  have hop : opcode (CmdParse.servoExit s) = opcode s := by simp [opcode, f1]
  have harg : argument (CmdParse.servoExit s) = argument s := by simp [argument, f1, f2]
  obtain ⟨s1, hrun, hv2, g1, g2, g3, g4, g5⟩ :=
    CmdParse.switch_valid env (argument s)
      { CmdParse.servoExit s with
        parsed := (CmdParse.servoExit s).parsed ++ [(opcode s, argument s)] }
      ⟨hv1.1, hv1.2.1, hv1.2.2.1, hv1.2.2.2.1, hv1.2.2.2.2⟩
  refine ⟨s1, ?_, hv2, ?_, ?_, ?_, ?_, ?_⟩
  · unfold CmdParse
    simp only [hg, if_false, hop, harg]
    exact hrun
  · rw [g1]; exact f1
  · rw [g2]; exact f2
  · rw [g3]; exact f3
  · rw [g4, f4]
  · rw [g5]; exact f5

/-! ## Frame extractor: one byte -/

/-- A byte that is neither delimiter, in an open frame below capacity, is
appended to the payload. -/
theorem CmdExtractCmd.byte_store (env : Env) (b : Nat) (s : Device)
    (hf : s.cmdFound = 1) (hl : s.lenCmdBuf < CMD_BUF_SIZE)
    (hb1 : b ≠ CMD_END) (hb2 : b ≠ CMD_START) :
    CmdExtractCmd.byte env b s
      = some { s with cmdBuf := s.cmdBuf.set s.lenCmdBuf b, lenCmdBuf := s.lenCmdBuf + 1 } := by
  have hne : s.lenCmdBuf ≠ CMD_BUF_SIZE := by omega
  simp [CmdExtractCmd.byte, hf, hl, hb1, hb2, hne]

/-- A byte that is neither delimiter, in an open frame at capacity, abandons
the frame. -/
theorem CmdExtractCmd.byte_overflow (env : Env) (b : Nat) (s : Device)
    (hl : s.lenCmdBuf = CMD_BUF_SIZE) (hb1 : b ≠ CMD_END) (hb2 : b ≠ CMD_START) :
    CmdExtractCmd.byte env b s = some { s with cmdFound := 0, lenCmdBuf := 0 } := by
  simp [CmdExtractCmd.byte, hl, hb1, hb2]

/-- Outside a frame, with nothing buffered, every byte but the start delimiter
leaves the state as it is. -/
theorem CmdExtractCmd.byte_idle (env : Env) (b : Nat) (s : Device)
    (hf : s.cmdFound = 0) (hl : s.lenCmdBuf = 0) (hb : b ≠ CMD_START) :
    CmdExtractCmd.byte env b s = some s := by
  simp [CmdExtractCmd.byte, hf, hl, hb]

/-- The start delimiter opens a frame with an empty payload, whatever the
state before. -/
theorem CmdExtractCmd.byte_start (env : Env) (s : Device)
    (h1 : s.cmdBuf.length = CMD_BUF_SIZE) (h3 : s.lenCmdBuf ≤ CMD_BUF_SIZE) :
    ∃ buf, buf.length = CMD_BUF_SIZE
      ∧ CmdExtractCmd.byte env CMD_START s
          = some { s with cmdBuf := buf, lenCmdBuf := 0, cmdFound := 1 } := by
  by_cases hl : s.lenCmdBuf = CMD_BUF_SIZE
  · exact ⟨s.cmdBuf, h1, by simp [CmdExtractCmd.byte, hl]⟩
  · have hlt : s.lenCmdBuf < CMD_BUF_SIZE := by omega
    by_cases hf : s.cmdFound = 1
    · exact ⟨s.cmdBuf.set s.lenCmdBuf CMD_START, by simpa using h1,
        by simp [CmdExtractCmd.byte, hl, hf, hlt]⟩
    · exact ⟨s.cmdBuf, h1, by simp [CmdExtractCmd.byte, hl, hf]⟩

/-- The end delimiter in an open frame invokes `CmdParse` on the state as it
is and closes the frame. -/
theorem CmdExtractCmd.byte_end (env : Env) (s : Device)
    (hf : s.cmdFound = 1) (hv : s.valid) :
    ∃ s1, CmdParse env s = some s1
      ∧ CmdExtractCmd.byte env CMD_END s
          = some { s1 with
              cmdFound := 0
              lenCmdBuf := if s.lenCmdBuf = CMD_BUF_SIZE then 0 else s.lenCmdBuf } := by
  obtain ⟨s1, hrun, _, _, g2, _, _, _⟩ := CmdParse_valid env s hv
  refine ⟨s1, hrun, ?_⟩
  by_cases hl : s.lenCmdBuf = CMD_BUF_SIZE
  · simp [CmdExtractCmd.byte, hf, hrun, g2, hl]
  · simp [CmdExtractCmd.byte, hf, hrun, g2, hl]

/-! ## Frame extractor: streams -/

theorem run_append (a b : List (Env × Nat)) (s : Device) :
    run (a ++ b) s = (run a s).bind (run b) := by
  induction a generalizing s with
  | nil => rfl
  | cons eb rest ih =>
    simp only [List.cons_append, run]
    cases CmdExtractCmd.byte eb.1 eb.2 s with
    | none => rfl
    | some s1 => exact ih s1

theorem CmdExtractCmd_eq_run (env : Env) (bs : List Nat) (s : Device) :
    CmdExtractCmd env bs s = run (bs.map (fun b => (env, b))) s := by
  induction bs generalizing s with
  | nil => rfl
  | cons b rest ih =>
    simp only [CmdExtractCmd, List.map_cons, run]
    cases CmdExtractCmd.byte env b s with
    | none => rfl
    | some s1 => exact ih s1

theorem feed_eq_run (chunks : List (Env × List Nat)) (s : Device) :
    feed chunks s = run (tagged chunks) s := by
  induction chunks generalizing s with
  | nil => rfl
  | cons c rest ih =>
    simp only [feed, tagged, run_append, CmdExtractCmd_eq_run]
    cases run (c.2.map (fun b => (c.1, b))) s with
    | none => rfl
    | some s1 => exact ih s1

theorem tagged_snd (chunks : List (Env × List Nat)) :
    (tagged chunks).map Prod.snd = streamOf chunks := by
  induction chunks with
  | nil => rfl
  | cons c rest ih =>
    simp only [tagged, List.map_append, List.map_map, ih, streamOf, List.map_cons,
      List.flatten_cons]
    congr 1
    induction c.2 with
    | nil => rfl
    | cons b bs ihb => simp

/-- Payload bytes, none of them a delimiter, fed into an open frame that has
room for them, are appended to the payload. -/
theorem run_payload (p : List (Env × Nat)) :
    ∀ (s : Device), s.cmdFound = 1 → s.cmdBuf.length = CMD_BUF_SIZE →
      s.lenCmdBuf + p.length ≤ CMD_BUF_SIZE →
      (∀ eb ∈ p, eb.2 ≠ CMD_END ∧ eb.2 ≠ CMD_START) →
      ∃ buf, buf.length = CMD_BUF_SIZE
        ∧ buf.take (s.lenCmdBuf + p.length) = s.cmdBuf.take s.lenCmdBuf ++ p.map Prod.snd
        ∧ run p s = some { s with cmdBuf := buf, lenCmdBuf := s.lenCmdBuf + p.length } := by
  induction p with
  | nil =>
    intro s _ h1 _ _
    exact ⟨s.cmdBuf, h1, by simp, rfl⟩
  | cons eb rest ih =>
    intro s hf h1 hl hp
    obtain ⟨hb1, hb2⟩ := hp eb (List.mem_cons_self _ _)
    simp only [List.length_cons] at hl
    have hlt : s.lenCmdBuf < CMD_BUF_SIZE := by omega
    have hstep := CmdExtractCmd.byte_store eb.1 eb.2 s hf hlt hb1 hb2
    obtain ⟨buf, hbl, htake, hrun⟩ :=
      ih { s with cmdBuf := s.cmdBuf.set s.lenCmdBuf eb.2, lenCmdBuf := s.lenCmdBuf + 1 }
        hf (by simp [h1]) (by simp only []; omega)
        (fun x hx => hp x (List.mem_cons_of_mem _ hx))
    simp only [] at htake hrun
    refine ⟨buf, hbl, ?_, ?_⟩
    · have e : s.lenCmdBuf + (rest.length + 1) = s.lenCmdBuf + 1 + rest.length := by omega
      rw [List.length_cons, e, htake, take_succ_set _ _ _ (by omega)]
      simp
    · simp only [run, hstep, hrun, List.length_cons]
      congr 2
      omega

theorem run_idle (l : List (Env × Nat)) (s : Device)
    (hf : s.cmdFound = 0) (hl : s.lenCmdBuf = 0) (hb : ∀ eb ∈ l, eb.2 ≠ CMD_START) :
    run l s = some s := by
  induction l with
  | nil => rfl
  | cons eb rest ih =>
    simp only [run, CmdExtractCmd.byte_idle eb.1 eb.2 s hf hl (hb eb (List.mem_cons_self _ _))]
    exact ih (fun x hx => hb x (List.mem_cons_of_mem _ hx))

/-- The start delimiter followed by payload bytes that fit the buffer: the
frame is open, the payload is exactly those bytes, nothing else has changed. -/
theorem run_open (e0 : Env) (p : List (Env × Nat)) (s : Device)
    (h1 : s.cmdBuf.length = CMD_BUF_SIZE) (h3 : s.lenCmdBuf ≤ CMD_BUF_SIZE)
    (hl : p.length ≤ CMD_BUF_SIZE)
    (hp : ∀ eb ∈ p, eb.2 ≠ CMD_END ∧ eb.2 ≠ CMD_START) :
    ∃ buf, buf.length = CMD_BUF_SIZE
      ∧ buf.take p.length = p.map Prod.snd
      ∧ run ((e0, CMD_START) :: p) s
          = some { s with cmdBuf := buf, lenCmdBuf := p.length, cmdFound := 1 } := by
  obtain ⟨buf0, hb0, hstart⟩ := CmdExtractCmd.byte_start e0 s h1 h3
  obtain ⟨buf, hbl, htake, hrun⟩ :=
    run_payload p { s with cmdBuf := buf0, lenCmdBuf := 0, cmdFound := 1 } rfl hb0
      (by simp only []; omega) hp
  simp only [Nat.zero_add, List.take_zero, List.nil_append] at htake hrun
  exact ⟨buf, hbl, htake, by simp only [run, hstart, hrun]⟩

/-- A whole frame: start delimiter, payload bytes that fit the buffer, end
delimiter. `CmdParse` is invoked once, with the reading of the call that
delivers the end delimiter, on the state whose payload is exactly those
bytes; then the frame is closed. -/
theorem run_frame (e0 eN : Env) (p : List (Env × Nat)) (s : Device) (hv : s.valid)
    (hl : p.length ≤ CMD_BUF_SIZE)
    (hp : ∀ eb ∈ p, eb.2 ≠ CMD_END ∧ eb.2 ≠ CMD_START) :
    ∃ buf s1, buf.length = CMD_BUF_SIZE
      ∧ buf.take p.length = p.map Prod.snd
      ∧ CmdParse eN { s with cmdBuf := buf, lenCmdBuf := p.length, cmdFound := 1 } = some s1
      ∧ run ((e0, CMD_START) :: p ++ [(eN, CMD_END)]) s
          = some { s1 with
              cmdFound := 0
              lenCmdBuf := if p.length = CMD_BUF_SIZE then 0 else p.length } := by
  obtain ⟨h1, h2, h3, h4, h5⟩ := hv
  obtain ⟨buf, hbl, htake, hopen⟩ := run_open e0 p s h1 h3 hl hp
  obtain ⟨s1, hparse, hend⟩ :=
    CmdExtractCmd.byte_end eN { s with cmdBuf := buf, lenCmdBuf := p.length, cmdFound := 1 }
      rfl ⟨hbl, h2, hl, h4, h5⟩
  refine ⟨buf, s1, hbl, htake, hparse, ?_⟩
  have e : (e0, CMD_START) :: p ++ [(eN, CMD_END)]
      = ((e0, CMD_START) :: p) ++ [(eN, CMD_END)] := rfl
  rw [e, run_append, hopen]
  simp only [Option.bind, run, hend]

/-- The opcode and the argument `CmdParse` sees when the payload is the byte
`o` followed by the bytes `a`. -/
theorem opcode_argument_of_payload (s : Device) (o : Nat) (a : List Nat)
    (hlen : s.lenCmdBuf = a.length + 1)
    (hp : s.cmdBuf.take s.lenCmdBuf = o :: a) :
    opcode s = o ∧ argument s = AsciiToNumber a := by
  rw [hlen] at hp
  cases hb : s.cmdBuf with
  | nil => rw [hb] at hp; simp at hp
  | cons x rest =>
    rw [hb] at hp
    simp only [List.take_succ_cons, List.cons.injEq] at hp
    obtain ⟨hx, hrest⟩ := hp
    refine ⟨by simp [opcode, hb, hx], ?_⟩
    unfold argument
    rw [hb, hlen]
    cases a with
    | nil => simp [AsciiToNumber]
    | cons d ds =>
      simp only [List.length_cons] at hrest ⊢
      simp [hrest]

theorem split_frame (ebs : List (Env × Nat)) (payload : List Nat)
    (h : ebs.map Prod.snd = CMD_START :: payload ++ [CMD_END]) :
    ∃ e0 p eN, ebs = (e0, CMD_START) :: p ++ [(eN, CMD_END)] ∧ p.map Prod.snd = payload := by
  have h' : ebs.map Prod.snd = [CMD_START] ++ (payload ++ [CMD_END]) := by simpa using h
  obtain ⟨l1, l2, rfl, hl1, hl2⟩ := List.map_eq_append_iff.mp h'
  obtain ⟨p, l3, rfl, hp, hl3⟩ := List.map_eq_append_iff.mp hl2
  match l1, hl1 with
  | [(e0, b0)], hb0 =>
    match l3, hl3 with
    | [(eN, bN)], hbN =>
      simp only [List.map_cons, List.map_nil, List.cons.injEq, and_true] at hb0 hbN
      subst hb0 hbN
      exact ⟨e0, p, eN, by simp, hp⟩

/-! ## Frame extractor: the claims -/

/-- C1. From every well-formed state (frame open or closed, any buffered
length up to `CMD_BUF_SIZE`, any buffer contents) and for every chunking of
the stream, the bytes `'#'`, an opcode `o` other than `'#'` and `'!'`, `k ≤ 9`
digits and `'!'` make the extractor return with exactly one new invocation of
`CmdParse` recorded, with opcode `o` and argument `AsciiToNumber` of exactly
those digits, and with the frame closed; every chunking of a prefix that
stops before the final `'!'` records no invocation. -/
theorem frame_dispatched_once (s : Device) (hv : s.valid)
    (chunks : List (Env × List Nat)) (o : Nat) (digits : List Nat)
    (ho1 : o ≠ CMD_START) (ho2 : o ≠ CMD_END)
    (hd : allDigits digits) (hk : digits.length ≤ 9)
    (hs : streamOf chunks = CMD_START :: o :: digits ++ [CMD_END]) :
    (∃ s1, feed chunks s = some s1
        ∧ s1.parsed = s.parsed ++ [(o, AsciiToNumber digits)]
        ∧ s1.cmdFound = 0)
      ∧ ∀ (before : List (Env × List Nat)),
          streamOf before <+: CMD_START :: o :: digits →
          ∃ s0, feed before s = some s0 ∧ s0.parsed = s.parsed := by
  have hpay : ∀ b ∈ o :: digits, b ≠ CMD_END ∧ b ≠ CMD_START := by
    intro b hb
    rcases List.mem_cons.mp hb with rfl | hb
    · exact ⟨ho2, ho1⟩
    · have := hd b hb
      refine ⟨fun h => ?_, fun h => ?_⟩ <;>
        (subst h; revert this; decide)
  constructor
  · rw [feed_eq_run]
    have hs' : (tagged chunks).map Prod.snd = CMD_START :: (o :: digits) ++ [CMD_END] := by
      rw [tagged_snd, hs]
    obtain ⟨e0, p, eN, hsplit, hp⟩ := split_frame (tagged chunks) (o :: digits) hs'
    have hpl : p.length = digits.length + 1 := by
      have := congrArg List.length hp
      simpa using this
    have hpd : ∀ eb ∈ p, eb.2 ≠ CMD_END ∧ eb.2 ≠ CMD_START := by
      intro eb heb
      apply hpay
      rw [← hp]
      exact List.mem_map_of_mem _ heb
    obtain ⟨buf, s1, hbl, htake, hparse, hrun⟩ :=
      run_frame e0 eN p s hv (by simp only [CMD_BUF_SIZE]; omega) hpd
    obtain ⟨h1, h2, h3, h4, h5⟩ := hv
    obtain ⟨s1', hparse', _, _, _, _, g4, _⟩ :=
      CmdParse_valid eN { s with cmdBuf := buf, lenCmdBuf := p.length, cmdFound := 1 }
        ⟨hbl, h2, by simp only [CMD_BUF_SIZE]; omega, h4, h5⟩
    rw [hparse] at hparse'
    cases hparse'
    obtain ⟨hop, harg⟩ :=
      opcode_argument_of_payload
        { s with cmdBuf := buf, lenCmdBuf := p.length, cmdFound := 1 } o digits hpl
        (by rw [← hp]; exact htake)
    rw [hop, harg] at g4
    refine ⟨{ s1 with
        cmdFound := 0
        lenCmdBuf := if p.length = CMD_BUF_SIZE then 0 else p.length }, ?_, g4, rfl⟩
    rw [hsplit]
    exact hrun
  · intro before hpre
    rw [feed_eq_run]
    have hsnd := tagged_snd before
    cases hb : tagged before with
    | nil => exact ⟨s, rfl, rfl⟩
    | cons eb q =>
      rw [hb] at hsnd
      rw [← hsnd] at hpre
      obtain ⟨rest, hrest⟩ := hpre
      simp only [List.map_cons, List.cons_append, List.cons.injEq] at hrest
      obtain ⟨heb, hq⟩ := hrest
      have hqpre : q.map Prod.snd <+: o :: digits := ⟨rest, hq⟩
      have hql : q.length ≤ CMD_BUF_SIZE := by
        have := hqpre.length_le
        simp only [List.length_map, List.length_cons] at this
        simp only [CMD_BUF_SIZE]; omega
      have hqd : ∀ x ∈ q, x.2 ≠ CMD_END ∧ x.2 ≠ CMD_START := by
        intro x hx
        apply hpay
        exact hqpre.subset (List.mem_map_of_mem _ hx)
      obtain ⟨buf, _, _, hopen⟩ := run_open eb.1 q s hv.1 hv.2.2.1 hql hqd
      have e : eb = (eb.1, CMD_START) := by
        rw [← heb]
      rw [e]
      exact ⟨_, hopen, rfl⟩

/-- Witness of `frame_dispatched_once`: the frame `#P3!` delivered in the two
chunks `#P` and `3!` to the initial state. -/
theorem frame_dispatched_once_witness :
    (∃ s1, feed [(⟨5, false, false⟩, [35, 80]), (⟨6, false, false⟩, [51, 33])]
          (CmdParserInit 0) = some s1
        ∧ s1.parsed = (CmdParserInit 0).parsed ++ [(80, AsciiToNumber [51])]
        ∧ s1.cmdFound = 0)
      ∧ ∀ (before : List (Env × List Nat)),
          streamOf before <+: CMD_START :: 80 :: [51] →
          ∃ s0, feed before (CmdParserInit 0) = some s0
            ∧ s0.parsed = (CmdParserInit 0).parsed :=
  frame_dispatched_once (CmdParserInit 0) (by decide)
    [(⟨5, false, false⟩, [35, 80]), (⟨6, false, false⟩, [51, 33])] 80 [51]
    (by decide) (by decide) (by decide) (by decide) (by decide)

/-- C3. From every state with a buffer of the declared size and a buffered
length within capacity, and for every chunking: a start delimiter followed by
more than `CMD_BUF_SIZE` bytes, none of them `'#'` or `'!'`, leaves the frame
closed and the buffered length 0 with no invocation of `CmdParse` recorded;
from there every further stream without a start delimiter (a later `'!'`
included) leaves the state exactly as it is, so nothing is dispatched before
a subsequent `'#'`. -/
theorem oversized_frame_discarded (s : Device)
    (h1 : s.cmdBuf.length = CMD_BUF_SIZE) (h3 : s.lenCmdBuf ≤ CMD_BUF_SIZE)
    (chunks : List (Env × List Nat)) (junk : List Nat)
    (hj : CMD_BUF_SIZE < junk.length)
    (hnd : ∀ b ∈ junk, b ≠ CMD_END ∧ b ≠ CMD_START)
    (hs : streamOf chunks = CMD_START :: junk) :
    ∃ s1, feed chunks s = some s1
      ∧ s1.lenCmdBuf = 0 ∧ s1.cmdFound = 0 ∧ s1.parsed = s.parsed
      ∧ ∀ (later : List (Env × List Nat)),
          (∀ b ∈ streamOf later, b ≠ CMD_START) → feed later s1 = some s1 := by
  rw [feed_eq_run]
  have hsnd := tagged_snd chunks
  rw [hs] at hsnd
  obtain ⟨eb, q, hq, heb, hqj⟩ := List.map_eq_cons_iff.mp hsnd
  have hql : q.length = junk.length := by
    have := congrArg List.length hqj
    simpa using this
  have hqd : ∀ x ∈ q, x.2 ≠ CMD_END ∧ x.2 ≠ CMD_START := by
    intro x hx
    apply hnd
    rw [← hqj]
    exact List.mem_map_of_mem _ hx
  have hsplit : q = q.take CMD_BUF_SIZE ++ q.drop CMD_BUF_SIZE :=
    (List.take_append_drop _ _).symm
  have htl : (q.take CMD_BUF_SIZE).length = CMD_BUF_SIZE := by
    rw [List.length_take]; omega
  obtain ⟨buf, _, _, hopen⟩ :=
    run_open eb.1 (q.take CMD_BUF_SIZE) s h1 h3 (by omega)
      (fun x hx => hqd x (List.mem_of_mem_take hx))
  rw [htl] at hopen
  cases hdrop : q.drop CMD_BUF_SIZE with
  | nil =>
    have := congrArg List.length hdrop
    simp only [List.length_drop, List.length_nil] at this
    omega
  | cons x rest =>
    have hxq : x ∈ q := List.mem_of_mem_drop (by rw [hdrop]; exact List.mem_cons_self _ _)
    have hrq : ∀ y ∈ rest, y ∈ q := fun y hy =>
      List.mem_of_mem_drop (by rw [hdrop]; exact List.mem_cons_of_mem _ hy)
    have hover :=
      CmdExtractCmd.byte_overflow x.1 x.2
        { s with cmdBuf := buf, lenCmdBuf := CMD_BUF_SIZE, cmdFound := 1 } rfl
        (hqd x hxq).1 (hqd x hxq).2
    have hidle :=
      run_idle rest
        { s with cmdBuf := buf, lenCmdBuf := 0, cmdFound := 0 } rfl rfl
        (fun y hy => (hqd y (hrq y hy)).2)
    have e : eb = (eb.1, CMD_START) := by rw [← heb]
    refine ⟨{ s with cmdBuf := buf, lenCmdBuf := 0, cmdFound := 0 }, ?_, rfl, rfl, rfl, ?_⟩
    · rw [hq, hsplit, hdrop, e]
      have e2 : (eb.1, CMD_START) :: (q.take CMD_BUF_SIZE ++ x :: rest)
          = ((eb.1, CMD_START) :: q.take CMD_BUF_SIZE) ++ (x :: rest) := rfl
      rw [e2, run_append, hopen]
      simp only [Option.bind, run, hover]
      exact hidle
    · intro later hlater
      rw [feed_eq_run]
      apply run_idle _ _ rfl rfl
      intro y hy
      apply hlater
      rw [← tagged_snd]
      exact List.mem_map_of_mem _ hy

/-- Witness of `oversized_frame_discarded`: `#` and eleven bytes `A`, in one
chunk, delivered to the initial state. -/
theorem oversized_frame_discarded_witness :
    ∃ s1, feed [(⟨0, false, false⟩, [35, 65, 65, 65, 65, 65, 65, 65, 65, 65, 65, 65])]
          (CmdParserInit 0) = some s1
      ∧ s1.lenCmdBuf = 0 ∧ s1.cmdFound = 0 ∧ s1.parsed = (CmdParserInit 0).parsed
      ∧ ∀ (later : List (Env × List Nat)),
          (∀ b ∈ streamOf later, b ≠ CMD_START) → feed later s1 = some s1 :=
  oversized_frame_discarded (CmdParserInit 0) (by decide) (by decide)
    [(⟨0, false, false⟩, [35, 65, 65, 65, 65, 65, 65, 65, 65, 65, 65, 65])]
    [65, 65, 65, 65, 65, 65, 65, 65, 65, 65, 65] (by decide) (by decide) (by decide)

/-! ## Command dispatcher: the opcodes -/

theorem CmdParse.servoExit_control (s : Device)
    (h : opcode s = 83 ∨ opcode s = 80 ∨ opcode s = 70 ∨ opcode s = 87 ∨ opcode s = 90) :
    CmdParse.servoExit s = if s.servoMode = 1 then normalDefaults s else s := by
  unfold CmdParse.servoExit
  by_cases hm : s.servoMode = 1
  · rw [if_pos ⟨hm, h⟩, if_pos hm]; rfl
  · rw [if_neg (fun c => hm c.1), if_neg hm]

theorem CmdParse.servoExit_other (s : Device)
    (h : ¬ (opcode s = 83 ∨ opcode s = 80 ∨ opcode s = 70 ∨ opcode s = 87 ∨ opcode s = 90)) :
    CmdParse.servoExit s = s := by
  unfold CmdParse.servoExit
  rw [if_neg (fun c => h c.2)]

theorem clamp_eq_min (v c : Nat) : (if v > c then c else v) = min v c := by
  split <;> omega

/-- What `CmdParse` does, in terms of the state after the servo exit. -/
theorem CmdParse_eq (env : Env) (s : Device) (hl : s.lenCmdBuf ≤ CMD_BUF_SIZE) :
    CmdParse env s
      = CmdParse.switch env (argument s)
          { CmdParse.servoExit s with parsed := s.parsed ++ [(opcode s, argument s)] } := by
  obtain ⟨f1, f2, f3, f4, f5⟩ := CmdParse.servoExit_frame s
  have hg : ¬ (CmdParse.servoExit s).lenCmdBuf > CMD_BUF_SIZE := by rw [f2]; omega
  have hop : opcode (CmdParse.servoExit s) = opcode s := by simp [opcode, f1]
  have harg : argument (CmdParse.servoExit s) = argument s := by simp [argument, f1, f2]
  unfold CmdParse
  simp only [hg, if_false, hop, harg, f4]

theorem CmdParse.switch_S (env : Env) (v : Nat) (x : Device) (h : opcode x = 83) :
    CmdParse.switch env v x = some { x with CC1P := false, CCR1 := min v 1 * 100 } := by
  unfold CmdParse.switch
  rw [if_pos h, clamp_eq_min]

theorem CmdParse.switch_P (env : Env) (v : Nat) (x : Device) (h : opcode x = 80) :
    CmdParse.switch env v x
      = some { x with
          CC1P := false
          CCR1 := 100
          pulseOn := 1
          pulseStop := (env.tick + max (min v 36000) 1 * 100) % U32 } := by
  have e : (if (if v > 36000 then 36000 else v) < 1 then 1
      else (if v > 36000 then 36000 else v)) = max (min v 36000) 1 := by
    split <;> split <;> omega
  unfold CmdParse.switch
  rw [if_neg (by omega), if_pos h]
  simp only [e]

theorem CmdParse.switch_F (env : Env) (v : Nat) (x : Device) (h : opcode x = 70) :
    CmdParse.switch env v x = some { x with CC1P := true, CCR1 := min v 100 } := by
  unfold CmdParse.switch
  rw [if_neg (by omega), if_neg (by omega), if_pos h, clamp_eq_min]

theorem CmdParse.switch_W (env : Env) (v : Nat) (x : Device) (h : opcode x = 87) :
    CmdParse.switch env v x = some { x with CC1P := false, CCR1 := min v 100 } := by
  unfold CmdParse.switch
  rw [if_neg (by omega), if_neg (by omega), if_neg (by omega), if_pos h, clamp_eq_min]

theorem opcode_servoExit_logged (s : Device) (l : List (Nat × Nat)) :
    opcode { (if s.servoMode = 1 then normalDefaults s else s) with parsed := l }
      = opcode s := by
  unfold opcode
  split <;> rfl

/-- The opcode `'S'`: duty `100 * min arg 1`, polarity active high. -/
theorem CmdParse_S (env : Env) (s : Device) (hl : s.lenCmdBuf ≤ CMD_BUF_SIZE)
    (hop : opcode s = 83) :
    CmdParse env s
      = some { (if s.servoMode = 1 then normalDefaults s else s) with
          parsed := s.parsed ++ [(83, argument s)]
          CC1P := false
          CCR1 := min (argument s) 1 * 100 } := by
  rw [CmdParse_eq env s hl, CmdParse.servoExit_control s (by simp [hop]), hop,
    CmdParse.switch_S _ _ _ (by rw [opcode_servoExit_logged]; exact hop)]

/-- The opcode `'P'`: duty 100, polarity active high, pulse armed, the
deadline `arg` clamped to `[1, 36000]` times 100 after the tick, in the
32-bit arithmetic of the tick counter. -/
theorem CmdParse_P (env : Env) (s : Device) (hl : s.lenCmdBuf ≤ CMD_BUF_SIZE)
    (hop : opcode s = 80) :
    CmdParse env s
      = some { (if s.servoMode = 1 then normalDefaults s else s) with
          parsed := s.parsed ++ [(80, argument s)]
          CC1P := false
          CCR1 := 100
          pulseOn := 1
          pulseStop := (env.tick + max (min (argument s) 36000) 1 * 100) % U32 } := by
  rw [CmdParse_eq env s hl, CmdParse.servoExit_control s (by simp [hop]), hop,
    CmdParse.switch_P _ _ _ (by rw [opcode_servoExit_logged]; exact hop)]

/-- The opcode `'F'`: duty `min arg 100`, polarity active low. -/
theorem CmdParse_F (env : Env) (s : Device) (hl : s.lenCmdBuf ≤ CMD_BUF_SIZE)
    (hop : opcode s = 70) :
    CmdParse env s
      = some { (if s.servoMode = 1 then normalDefaults s else s) with
          parsed := s.parsed ++ [(70, argument s)]
          CC1P := true
          CCR1 := min (argument s) 100 } := by
  rw [CmdParse_eq env s hl, CmdParse.servoExit_control s (by simp [hop]), hop,
    CmdParse.switch_F _ _ _ (by rw [opcode_servoExit_logged]; exact hop)]

/-- The opcode `'W'`: duty `min arg 100`, polarity active high. -/
theorem CmdParse_W (env : Env) (s : Device) (hl : s.lenCmdBuf ≤ CMD_BUF_SIZE)
    (hop : opcode s = 87) :
    CmdParse env s
      = some { (if s.servoMode = 1 then normalDefaults s else s) with
          parsed := s.parsed ++ [(87, argument s)]
          CC1P := false
          CCR1 := min (argument s) 100 } := by
  rw [CmdParse_eq env s hl, CmdParse.servoExit_control s (by simp [hop]), hop,
    CmdParse.switch_W _ _ _ (by rw [opcode_servoExit_logged]; exact hop)]

/-! ## Whole frames in one transport call -/

/-- One call of `CmdExtractCmd` with the frame `'#'`, opcode `o`, argument
bytes `a`, `'!'`: `CmdParse` runs once on the state whose payload is `o`
followed by `a`, then the frame is closed. -/
theorem CmdExtractCmd_frame (env : Env) (s : Device) (hv : s.valid) (o : Nat) (a : List Nat)
    (ho1 : o ≠ CMD_START) (ho2 : o ≠ CMD_END) (ha : a.length ≤ 9)
    (hnd : ∀ b ∈ a, b ≠ CMD_END ∧ b ≠ CMD_START) :
    ∃ buf, buf.length = CMD_BUF_SIZE
      ∧ opcode { s with cmdBuf := buf, lenCmdBuf := a.length + 1, cmdFound := 1 } = o
      ∧ argument { s with cmdBuf := buf, lenCmdBuf := a.length + 1, cmdFound := 1 }
          = AsciiToNumber a
      ∧ CmdExtractCmd env (CMD_START :: o :: a ++ [CMD_END]) s
          = (CmdParse env { s with cmdBuf := buf, lenCmdBuf := a.length + 1, cmdFound := 1 }).map
              (fun s1 => { s1 with
                cmdFound := 0
                lenCmdBuf := if a.length + 1 = CMD_BUF_SIZE then 0 else a.length + 1 }) := by
  have hpl : ((o :: a).map (fun b => (env, b))).length = a.length + 1 := by simp
  have hpd : ∀ eb ∈ (o :: a).map (fun b => (env, b)), eb.2 ≠ CMD_END ∧ eb.2 ≠ CMD_START := by
    intro eb heb
    obtain ⟨b, hb, rfl⟩ := List.mem_map.mp heb
    rcases List.mem_cons.mp hb with rfl | hb
    · exact ⟨ho2, ho1⟩
    · exact hnd b hb
  obtain ⟨buf, s1, hbl, htake, hparse, hrun⟩ :=
    run_frame env env ((o :: a).map (fun b => (env, b))) s hv
      (by rw [hpl]; simp only [CMD_BUF_SIZE]; omega) hpd
  rw [hpl] at htake hparse hrun
  have hsnd : ((o :: a).map (fun b => (env, b))).map Prod.snd = o :: a := by
    simp [Function.comp_def]
  rw [hsnd] at htake
  obtain ⟨hop, harg⟩ :=
    opcode_argument_of_payload
      { s with cmdBuf := buf, lenCmdBuf := a.length + 1, cmdFound := 1 } o a rfl htake
  refine ⟨buf, hbl, hop, harg, ?_⟩
  rw [CmdExtractCmd_eq_run, hparse]
  have e : (CMD_START :: o :: a ++ [CMD_END]).map (fun b => (env, b))
      = (env, CMD_START) :: (o :: a).map (fun b => (env, b)) ++ [(env, CMD_END)] := by
    simp
  rw [e, hrun]
  rfl

/-- C7. From every well-formed state, for every argument byte string `a` that
a frame can carry (at most 9 bytes, no delimiter): the frame `'F' a` yields
duty `min (AsciiToNumber a) 100` with active-low polarity, `'W' a` the same
duty with active-high polarity, `'S' a` duty `100 * min (AsciiToNumber a) 1`
with active-high polarity; `#F101!` yields duty 100, `#F-!` yields duty 0, and
`#S2!` yields the same duty, polarity, timebase and mode as `#S1!`. -/
theorem duty_opcodes_clamp (env : Env) (s : Device) (hv : s.valid) (a : List Nat)
    (ha : a.length ≤ 9) (hnd : ∀ b ∈ a, b ≠ CMD_END ∧ b ≠ CMD_START) :
    (∃ s1, CmdExtractCmd env (CMD_START :: 70 :: a ++ [CMD_END]) s = some s1
        ∧ s1.CCR1 = min (AsciiToNumber a) 100 ∧ s1.CC1P = true)
      ∧ (∃ s1, CmdExtractCmd env (CMD_START :: 87 :: a ++ [CMD_END]) s = some s1
        ∧ s1.CCR1 = min (AsciiToNumber a) 100 ∧ s1.CC1P = false)
      ∧ (∃ s1, CmdExtractCmd env (CMD_START :: 83 :: a ++ [CMD_END]) s = some s1
        ∧ s1.CCR1 = 100 * min (AsciiToNumber a) 1 ∧ s1.CC1P = false)
      ∧ (∃ s1, CmdExtractCmd env [35, 70, 49, 48, 49, 33] s = some s1 ∧ s1.CCR1 = 100)
      ∧ (∃ s1, CmdExtractCmd env [35, 70, 45, 33] s = some s1 ∧ s1.CCR1 = 0)
      ∧ (∃ s1 s2, CmdExtractCmd env [35, 83, 49, 33] s = some s1
        ∧ CmdExtractCmd env [35, 83, 50, 33] s = some s2
        ∧ s1.CCR1 = s2.CCR1 ∧ s1.CC1P = s2.CC1P ∧ s1.PSC = s2.PSC ∧ s1.ARR = s2.ARR
        ∧ s1.servoMode = s2.servoMode) := by
  have hF : ∀ b : List Nat, b.length ≤ 9 → (∀ x ∈ b, x ≠ CMD_END ∧ x ≠ CMD_START) →
      ∃ s1, CmdExtractCmd env (CMD_START :: 70 :: b ++ [CMD_END]) s = some s1
        ∧ s1.CCR1 = min (AsciiToNumber b) 100 ∧ s1.CC1P = true := by
    intro b hb hbd
    obtain ⟨buf, _, hop, harg, hrun⟩ :=
      CmdExtractCmd_frame env s hv 70 b (by decide) (by decide) hb hbd
    rw [CmdParse_F env _ (by simp only [CMD_BUF_SIZE]; omega) hop, harg] at hrun
    exact ⟨_, hrun, rfl, rfl⟩
  have hS : ∀ b : List Nat, b.length ≤ 9 → (∀ x ∈ b, x ≠ CMD_END ∧ x ≠ CMD_START) →
      ∃ s1, CmdExtractCmd env (CMD_START :: 83 :: b ++ [CMD_END]) s = some s1
        ∧ s1.CCR1 = 100 * min (AsciiToNumber b) 1 ∧ s1.CC1P = false
        ∧ s1.PSC = (if s.servoMode = 1 then TRIGGER_TIMER_PSC - 1 else s.PSC)
        ∧ s1.ARR = (if s.servoMode = 1 then TRIGGER_TIMER_ARR - 1 else s.ARR)
        ∧ s1.servoMode = (if s.servoMode = 1 then 0 else s.servoMode) := by
    intro b hb hbd
    obtain ⟨buf, _, hop, harg, hrun⟩ :=
      CmdExtractCmd_frame env s hv 83 b (by decide) (by decide) hb hbd
    rw [CmdParse_S env _ (by simp only [CMD_BUF_SIZE]; omega) hop, harg] at hrun
    refine ⟨_, hrun, Nat.mul_comm _ _, rfl, ?_, ?_, ?_⟩ <;>
      (by_cases hm : s.servoMode = 1 <;> simp [hm, normalDefaults])
  refine ⟨hF a ha hnd, ?_, ?_, ?_, ?_, ?_⟩
  · obtain ⟨buf, _, hop, harg, hrun⟩ :=
      CmdExtractCmd_frame env s hv 87 a (by decide) (by decide) ha hnd
    rw [CmdParse_W env _ (by simp only [CMD_BUF_SIZE]; omega) hop, harg] at hrun
    exact ⟨_, hrun, rfl, rfl⟩
  · obtain ⟨s1, h1, h2, h3, _⟩ := hS a ha hnd
    exact ⟨s1, h1, h2, h3⟩
  · obtain ⟨s1, h1, h2, _⟩ := hF [49, 48, 49] (by decide) (by decide)
    exact ⟨s1, h1, by rw [h2]; decide⟩
  · obtain ⟨s1, h1, h2, _⟩ := hF [45] (by decide) (by decide)
    exact ⟨s1, h1, by rw [h2]; decide⟩
  · obtain ⟨s1, h1, c1, p1, q1, r1, m1⟩ := hS [49] (by decide) (by decide)
    obtain ⟨s2, h2, c2, p2, q2, r2, m2⟩ := hS [50] (by decide) (by decide)
    refine ⟨s1, s2, h1, h2, ?_, ?_, ?_, ?_, ?_⟩
    · rw [c1, c2]; decide
    · rw [p1, p2]
    · rw [q1, q2]
    · rw [r1, r2]
    · rw [m1, m2]

/-- Witness of `duty_opcodes_clamp`: the argument `"50"` from the initial
state. -/
theorem duty_opcodes_clamp_witness :
    (∃ s1, CmdExtractCmd ⟨0, false, false⟩ (CMD_START :: 70 :: [53, 48] ++ [CMD_END])
          (CmdParserInit 0) = some s1
        ∧ s1.CCR1 = min (AsciiToNumber [53, 48]) 100 ∧ s1.CC1P = true)
      ∧ (∃ s1, CmdExtractCmd ⟨0, false, false⟩ (CMD_START :: 87 :: [53, 48] ++ [CMD_END])
          (CmdParserInit 0) = some s1
        ∧ s1.CCR1 = min (AsciiToNumber [53, 48]) 100 ∧ s1.CC1P = false)
      ∧ (∃ s1, CmdExtractCmd ⟨0, false, false⟩ (CMD_START :: 83 :: [53, 48] ++ [CMD_END])
          (CmdParserInit 0) = some s1
        ∧ s1.CCR1 = 100 * min (AsciiToNumber [53, 48]) 1 ∧ s1.CC1P = false)
      ∧ (∃ s1, CmdExtractCmd ⟨0, false, false⟩ [35, 70, 49, 48, 49, 33] (CmdParserInit 0)
          = some s1 ∧ s1.CCR1 = 100)
      ∧ (∃ s1, CmdExtractCmd ⟨0, false, false⟩ [35, 70, 45, 33] (CmdParserInit 0) = some s1
        ∧ s1.CCR1 = 0)
      ∧ (∃ s1 s2, CmdExtractCmd ⟨0, false, false⟩ [35, 83, 49, 33] (CmdParserInit 0) = some s1
        ∧ CmdExtractCmd ⟨0, false, false⟩ [35, 83, 50, 33] (CmdParserInit 0) = some s2
        ∧ s1.CCR1 = s2.CCR1 ∧ s1.CC1P = s2.CC1P ∧ s1.PSC = s2.PSC ∧ s1.ARR = s2.ARR
        ∧ s1.servoMode = s2.servoMode) :=
  duty_opcodes_clamp ⟨0, false, false⟩ (CmdParserInit 0) (by decide) [53, 48] (by decide)
    (by decide)

/-- The frame `'P' a` in one transport call: duty 100, polarity active high,
pulse armed, deadline from the argument clamped to `[1, 36000]`. -/
theorem CmdExtractCmd_P (env : Env) (s : Device) (hv : s.valid) (a : List Nat)
    (ha : a.length ≤ 9) (hnd : ∀ b ∈ a, b ≠ CMD_END ∧ b ≠ CMD_START) :
    ∃ s1, CmdExtractCmd env (CMD_START :: 80 :: a ++ [CMD_END]) s = some s1
      ∧ s1.CCR1 = 100 ∧ s1.CC1P = false ∧ s1.pulseOn = 1
      ∧ s1.pulseStop = (env.tick + 100 * min (max (AsciiToNumber a) 1) 36000) % U32 := by
  obtain ⟨buf, _, hop, harg, hrun⟩ :=
    CmdExtractCmd_frame env s hv 80 a (by decide) (by decide) ha hnd
  rw [CmdParse_P env _ (by simp only [CMD_BUF_SIZE]; omega) hop, harg] at hrun
  have e : max (min (AsciiToNumber a) 36000) 1 * 100
      = 100 * min (max (AsciiToNumber a) 1) 36000 := by omega
  refine ⟨_, hrun, rfl, rfl, rfl, ?_⟩
  show (env.tick + max (min (AsciiToNumber a) 36000) 1 * 100) % U32 = _
  rw [e]

/-- C8 (as amended). From every well-formed state, for every argument byte
string `a` that a frame can carry, the frame `'P' a` dispatched at tick `t`
clamps the parsed argument to `[1, 36000]`: afterwards the duty is 100, the
polarity active high, the pulse armed, and the deadline is
`t + 100 * min (max arg 1) 36000` in the 32-bit arithmetic of the tick counter
(that very sum when it does not exceed the counter). -/
theorem pulse_opcode_clamp (env : Env) (s : Device) (hv : s.valid) (a : List Nat)
    (ha : a.length ≤ 9) (hnd : ∀ b ∈ a, b ≠ CMD_END ∧ b ≠ CMD_START) :
    ∃ s1, CmdExtractCmd env (CMD_START :: 80 :: a ++ [CMD_END]) s = some s1
      ∧ s1.CCR1 = 100 ∧ s1.CC1P = false ∧ s1.pulseOn = 1
      ∧ s1.pulseStop = (env.tick + 100 * min (max (AsciiToNumber a) 1) 36000) % U32
      ∧ (env.tick + 100 * min (max (AsciiToNumber a) 1) 36000 < U32 →
          s1.pulseStop = env.tick + 100 * min (max (AsciiToNumber a) 1) 36000) := by
  obtain ⟨s1, hrun, h1, h2, h3, h4⟩ := CmdExtractCmd_P env s hv a ha hnd
  exact ⟨s1, hrun, h1, h2, h3, h4, fun h => by rw [h4]; exact Nat.mod_eq_of_lt h⟩

/-- Witness of `pulse_opcode_clamp`: the frame `#P400!` at tick 7 from the
initial state. -/
theorem pulse_opcode_clamp_witness :
    ∃ s1, CmdExtractCmd ⟨7, false, false⟩ (CMD_START :: 80 :: [52, 48, 48] ++ [CMD_END])
          (CmdParserInit 0) = some s1
      ∧ s1.CCR1 = 100 ∧ s1.CC1P = false ∧ s1.pulseOn = 1
      ∧ s1.pulseStop = (7 + 100 * min (max (AsciiToNumber [52, 48, 48]) 1) 36000) % U32
      ∧ (7 + 100 * min (max (AsciiToNumber [52, 48, 48]) 1) 36000 < U32 →
          s1.pulseStop = 7 + 100 * min (max (AsciiToNumber [52, 48, 48]) 1) 36000) :=
  pulse_opcode_clamp ⟨7, false, false⟩ (CmdParserInit 0) (by decide) [52, 48, 48]
    (by decide) (by decide)

/-- C8 (counterexample). The frame `#P400!` at tick 0 from the initial state:
the parsed argument is 400 and the deadline is 40000, not
`0 + 100 * min (max 400 1) 360 = 36000`. -/
theorem pulse_clamp_360_counterexample :
    AsciiToNumber [52, 48, 48] = 400
      ∧ (CmdExtractCmd ⟨0, false, false⟩ [35, 80, 52, 48, 48, 33] (CmdParserInit 0)).map
          (fun s => (s.parsed, s.pulseOn, s.pulseStop)) = some ([(80, 400)], 1, 40000)
      ∧ (40000 : Nat) ≠ 0 + 100 * min (max 400 1) 360 := by
  decide

/-- C2 (the code at the failing input). From the initial state the stream
`#S123!#!` invokes `CmdParse` twice: for the frame `#S123!` (duty 100) and
again for the empty frame `#!`, with the opcode `'S'` left in `cmdBuf[0]` by
the earlier frame and argument 0, which switches the output off; with `#X123!`
as earlier frame the same bytes `#!` dispatch the opcode `'X'` instead. -/
theorem empty_frame_dispatches_stale_opcode :
    (CmdExtractCmd ⟨0, false, false⟩ [35, 83, 49, 50, 51, 33] (CmdParserInit 0)).map
        (fun s => (s.parsed, s.CCR1)) = some ([(83, 123)], 100)
      ∧ (CmdExtractCmd ⟨0, false, false⟩ [35, 83, 49, 50, 51, 33, 35, 33]
          (CmdParserInit 0)).map
        (fun s => (s.parsed, s.CCR1)) = some ([(83, 123), (83, 0)], 0)
      ∧ (CmdExtractCmd ⟨0, false, false⟩ [35, 88, 49, 50, 51, 33, 35, 33]
          (CmdParserInit 0)).map
        (fun s => (s.parsed, s.CCR1)) = some ([(88, 123), (88, 0)], 0) := by
  decide

/-! ## Pulse output -/

theorem NumberToAscii_servoMode (t n : Nat) (s s1 : Device)
    (h : NumberToAscii t n s = some s1) : s1.servoMode = s.servoMode := by
  unfold NumberToAscii at h
  simp only [] at h
  split at h
  · exact absurd h (by simp)
  · split at h
    · simp only [Option.some.injEq] at h
      rw [← h]
    · exact absurd h (by simp)

/-- The switch of `CmdParse` changes the mode only in the branch of `'A'`,
from Normal to Servo. -/
theorem CmdParse.switch_servoMode (env : Env) (v : Nat) (x x1 : Device)
    (h : CmdParse.switch env v x = some x1) :
    x1.servoMode = if opcode x = 65 ∧ x.servoMode = 0 then 1 else x.servoMode := by
  have hnum : ∀ n, NumberToAscii env.tick n x = some x1 → opcode x ≠ 65 →
      x1.servoMode = if opcode x = 65 ∧ x.servoMode = 0 then 1 else x.servoMode := by
    intro n hn hne
    rw [NumberToAscii_servoMode _ _ _ _ hn, if_neg (fun c => hne c.1)]
  have hsome : ∀ y : Device, some y = some x1 → y.servoMode = x.servoMode →
      opcode x ≠ 65 →
      x1.servoMode = if opcode x = 65 ∧ x.servoMode = 0 then 1 else x.servoMode := by
    intro y hy hm hne
    simp only [Option.some.injEq] at hy
    rw [← hy, hm, if_neg (fun c => hne c.1)]
  unfold CmdParse.switch at h
  by_cases c83 : opcode x = 83
  · rw [if_pos c83] at h
    exact hsome _ h rfl (by omega)
  rw [if_neg c83] at h
  by_cases c80 : opcode x = 80
  · rw [if_pos c80] at h
    exact hsome _ h rfl (by omega)
  rw [if_neg c80] at h
  by_cases c70 : opcode x = 70
  · rw [if_pos c70] at h
    exact hsome _ h rfl (by omega)
  rw [if_neg c70] at h
  by_cases c87 : opcode x = 87
  · rw [if_pos c87] at h
    exact hsome _ h rfl (by omega)
  rw [if_neg c87] at h
  by_cases c73 : opcode x = 73
  · rw [if_pos c73] at h
    exact hnum _ h (by omega)
  rw [if_neg c73] at h
  by_cases c84 : opcode x = 84
  · rw [if_pos c84] at h
    exact hnum _ h (by omega)
  rw [if_neg c84] at h
  by_cases c79 : opcode x = 79
  · rw [if_pos c79] at h
    exact hnum _ h (by omega)
  rw [if_neg c79] at h
  by_cases c90 : opcode x = 90
  · rw [if_pos c90] at h
    exact hsome _ h rfl (by omega)
  rw [if_neg c90] at h
  by_cases c65 : opcode x = 65
  · rw [if_pos c65] at h
    simp only [Option.some.injEq] at h
    rw [← h]
    by_cases hm : x.servoMode = 0
    · simp [hm, c65]
    · simp [hm]
  rw [if_neg c65] at h
  exact hsome _ h rfl c65

/-- The mode after `CmdParse`, from the mode and the opcode before. -/
theorem CmdParse_servoMode (env : Env) (s s1 : Device) (hl : s.lenCmdBuf ≤ CMD_BUF_SIZE)
    (h : CmdParse env s = some s1) :
    s1.servoMode
      = if opcode s = 65 ∧ (CmdParse.servoExit s).servoMode = 0 then 1
        else (CmdParse.servoExit s).servoMode := by
  rw [CmdParse_eq env s hl] at h
  have := CmdParse.switch_servoMode env _ _ _ h
  have hop : opcode { CmdParse.servoExit s with
      parsed := s.parsed ++ [(opcode s, argument s)] } = opcode s := by
    simp [opcode, (CmdParse.servoExit_frame s).1]
  rw [hop] at this
  exact this

/-- C10. From every well-formed state: in servo mode an invocation of
`CmdParse` with one of the opcodes `S`, `P`, `F`, `W`, `Z` is the invocation
on the state with the Normal defaults re-applied (duty 0, prescaler 19,
auto-reload 99, polarity active high, mode Normal) and ends in mode Normal;
in servo mode every other opcode (`I`, `T`, `O`, `A`, unrecognised ones) ends
in servo mode; in Normal mode the opcode `A` ends in servo mode and every
other opcode ends in Normal mode. -/
theorem mode_transitions (env : Env) (s : Device) (hv : s.valid) :
    ((normalDefaults s).CCR1 = 0 ∧ (normalDefaults s).PSC = 19
        ∧ (normalDefaults s).ARR = 99 ∧ (normalDefaults s).CC1P = false
        ∧ (normalDefaults s).servoMode = 0)
      ∧ (s.servoMode = 1 →
          (opcode s = 83 ∨ opcode s = 80 ∨ opcode s = 70 ∨ opcode s = 87 ∨ opcode s = 90) →
          CmdParse env s = CmdParse env (normalDefaults s)
            ∧ ∃ s1, CmdParse env s = some s1 ∧ s1.servoMode = 0)
      ∧ (s.servoMode = 1 →
          ¬ (opcode s = 83 ∨ opcode s = 80 ∨ opcode s = 70 ∨ opcode s = 87 ∨ opcode s = 90) →
          ∃ s1, CmdParse env s = some s1 ∧ s1.servoMode = 1)
      ∧ (s.servoMode = 0 →
          ∃ s1, CmdParse env s = some s1
            ∧ (opcode s = 65 → s1.servoMode = 1)
            ∧ (opcode s ≠ 65 → s1.servoMode = 0)) := by
  obtain ⟨s1, hrun, _⟩ := CmdParse_valid env s hv
  have hl : s.lenCmdBuf ≤ CMD_BUF_SIZE := hv.2.2.1
  have hmode := CmdParse_servoMode env s s1 hl hrun
  refine ⟨⟨rfl, rfl, rfl, rfl, rfl⟩, ?_, ?_, ?_⟩
  · intro hm hop
    have hex : CmdParse.servoExit s = normalDefaults s := by
      rw [CmdParse.servoExit_control s hop, if_pos hm]
    have hex2 : CmdParse.servoExit (normalDefaults s) = normalDefaults s := by
      rw [CmdParse.servoExit_control (normalDefaults s) hop]
      exact if_neg (by simp [normalDefaults])
    refine ⟨?_, s1, hrun, ?_⟩
    · rw [CmdParse_eq env s hl, CmdParse_eq env (normalDefaults s) hl, hex, hex2]
      rfl
    · rw [hmode, hex]
      have hne : opcode s ≠ 65 := by omega
      simp [hne, normalDefaults]
  · intro hm hop
    have hex : CmdParse.servoExit s = s := CmdParse.servoExit_other s hop
    refine ⟨s1, hrun, ?_⟩
    rw [hmode, hex, hm]
    simp
  · intro hm
    have hex : CmdParse.servoExit s = s := by
      unfold CmdParse.servoExit
      rw [if_neg (fun c => by omega)]
    refine ⟨s1, hrun, ?_, ?_⟩
    · intro hop
      rw [hmode, hex, if_pos ⟨hop, hm⟩]
    · intro hop
      rw [hmode, hex, if_neg (fun c => hop c.1), hm]

/-- Witness of `mode_transitions`: the state in servo mode after `#A50!` from
the initial state, with the payload `F80` buffered. -/
theorem mode_transitions_witness :
    ((normalDefaults { CmdParserInit 0 with
          cmdBuf := [70, 56, 48, 0, 0, 0, 0, 0, 0, 0], lenCmdBuf := 3, cmdFound := 1
          servoMode := 1, PSC := 959, ARR := 999, CC1P := true, CCR1 := 50 }).CCR1 = 0
        ∧ (normalDefaults { CmdParserInit 0 with
          cmdBuf := [70, 56, 48, 0, 0, 0, 0, 0, 0, 0], lenCmdBuf := 3, cmdFound := 1
          servoMode := 1, PSC := 959, ARR := 999, CC1P := true, CCR1 := 50 }).PSC = 19)
      ∧ (CmdParse ⟨0, false, false⟩ { CmdParserInit 0 with
          cmdBuf := [70, 56, 48, 0, 0, 0, 0, 0, 0, 0], lenCmdBuf := 3, cmdFound := 1
          servoMode := 1, PSC := 959, ARR := 999, CC1P := true, CCR1 := 50 }
          = CmdParse ⟨0, false, false⟩ (normalDefaults { CmdParserInit 0 with
          cmdBuf := [70, 56, 48, 0, 0, 0, 0, 0, 0, 0], lenCmdBuf := 3, cmdFound := 1
          servoMode := 1, PSC := 959, ARR := 999, CC1P := true, CCR1 := 50 })
        ∧ ∃ s1, CmdParse ⟨0, false, false⟩ { CmdParserInit 0 with
          cmdBuf := [70, 56, 48, 0, 0, 0, 0, 0, 0, 0], lenCmdBuf := 3, cmdFound := 1
          servoMode := 1, PSC := 959, ARR := 999, CC1P := true, CCR1 := 50 } = some s1
          ∧ s1.servoMode = 0) :=
  ⟨⟨(mode_transitions ⟨0, false, false⟩ _ (by decide)).1.1,
      (mode_transitions ⟨0, false, false⟩ _ (by decide)).1.2.1⟩,
    (mode_transitions ⟨0, false, false⟩ _ (by decide)).2.1 (by decide) (by decide)⟩

/-! ## Servo entry -/

theorem CmdParse.switch_A (env : Env) (v : Nat) (x : Device) (h : opcode x = 65) :
    CmdParse.switch env v x
      = some { (if x.servoMode = 0 then
            { x with
              CCR1 := 0
              CNT := 0
              SR := 0
              PSC := 960 - 1
              ARR := 1000 - 1
              CC1P := true
              CEN := true
              servoMode := 1 }
          else x) with CCR1 := min v 200 } := by
  have nS : ¬ opcode x = 83 := by omega
  have nP : ¬ opcode x = 80 := by omega
  have nF : ¬ opcode x = 70 := by omega
  have nW : ¬ opcode x = 87 := by omega
  have nI : ¬ opcode x = 73 := by omega
  have nT : ¬ opcode x = 84 := by omega
  have nO : ¬ opcode x = 79 := by omega
  have nZ : ¬ opcode x = 90 := by omega
  unfold CmdParse.switch
  rw [if_neg nS, if_neg nP, if_neg nF, if_neg nW, if_neg nI, if_neg nT, if_neg nO, if_neg nZ,
    if_pos h, clamp_eq_min]

/-- `CheckDelays` is its four parts in order: debounce, pulse, response, tach. -/
theorem CheckDelays_eq (e : Env) (s : Device) :
    CheckDelays e s
      = CheckDelays.tach e (CheckDelays.tx e (CheckDelays.pulse e (CheckDelays.button e s))) :=
  rfl

theorem CheckDelays.button_eq (e : Env) (s : Device) :
    CheckDelays.button e s
      = { s with
          buttonState :=
            if s.buttonState = ButtonCtrl.PRESS_START ∧ s.debounceStop ≤ e.tick then
              ButtonCtrl.PRESSED
            else if s.buttonState = ButtonCtrl.RELEASE_START ∧ s.debounceStop ≤ e.tick then
              ButtonCtrl.RELEASED
            else s.buttonState } := by
  unfold CheckDelays.button
  simp only []
  split_ifs <;> simp_all

theorem CheckDelays.pulse_eq (e : Env) (s : Device) :
    CheckDelays.pulse e s
      = { s with
          pulseOn := if s.pulseOn = 1 ∧ s.pulseStop ≤ e.tick then 0 else s.pulseOn
          CCR1 := if s.pulseOn = 1 ∧ s.pulseStop ≤ e.tick then 0 else s.CCR1 } := by
  unfold CheckDelays.pulse
  split_ifs <;> rfl

theorem CheckDelays.tx_eq (e : Env) (s : Device) :
    CheckDelays.tx e s
      = { s with
          sendTxBuf := if s.sendTxBuf = 1 ∧ s.sendTxBufStart ≤ e.tick then 0 else s.sendTxBuf
          sent := if s.sendTxBuf = 1 ∧ s.sendTxBufStart ≤ e.tick then
              s.sent ++ [s.txBuf.take s.lenTxBuf]
            else s.sent } := by
  unfold CheckDelays.tx
  split_ifs <;> rfl

theorem CheckDelays.tach_eq (e : Env) (s : Device) :
    CheckDelays.tach e s
      = { s with
          rpmMinute := if s.rpmNextCalc ≤ e.tick then (s.rpmPluses * 30) % U16 else s.rpmMinute
          rpmNextCalc := if s.rpmNextCalc ≤ e.tick then (e.tick + RPM_INTEGRATION_TM) % U32
            else s.rpmNextCalc
          rpmPluses := if s.rpmNextCalc ≤ e.tick then 0 else s.rpmPluses } := by
  unfold CheckDelays.tach
  split_ifs <;> rfl

/-- What `CheckDelays` does, field by field. -/
theorem CheckDelays_fields (e : Env) (s : Device) :
    CheckDelays e s
      = { s with
          buttonState :=
            if s.buttonState = ButtonCtrl.PRESS_START ∧ s.debounceStop ≤ e.tick then
              ButtonCtrl.PRESSED
            else if s.buttonState = ButtonCtrl.RELEASE_START ∧ s.debounceStop ≤ e.tick then
              ButtonCtrl.RELEASED
            else s.buttonState
          pulseOn := if s.pulseOn = 1 ∧ s.pulseStop ≤ e.tick then 0 else s.pulseOn
          CCR1 := if s.pulseOn = 1 ∧ s.pulseStop ≤ e.tick then 0 else s.CCR1
          sendTxBuf := if s.sendTxBuf = 1 ∧ s.sendTxBufStart ≤ e.tick then 0 else s.sendTxBuf
          sent := if s.sendTxBuf = 1 ∧ s.sendTxBufStart ≤ e.tick then
              s.sent ++ [s.txBuf.take s.lenTxBuf]
            else s.sent
          rpmMinute := if s.rpmNextCalc ≤ e.tick then (s.rpmPluses * 30) % U16 else s.rpmMinute
          rpmNextCalc := if s.rpmNextCalc ≤ e.tick then (e.tick + RPM_INTEGRATION_TM) % U32
            else s.rpmNextCalc
          rpmPluses := if s.rpmNextCalc ≤ e.tick then 0 else s.rpmPluses } := by
  rw [CheckDelays_eq, CheckDelays.button_eq, CheckDelays.pulse_eq, CheckDelays.tx_eq,
    CheckDelays.tach_eq]

/-! ## Tach window -/

/-- C14 (as amended). The scale factor is 30. The tick that closes the window
(a tick with `rpmNextCalc ≤ now`) sets the rate to `(c * 30) mod 2^16`, the
rate being a `uint16_t`, where `c` is the pulse count, and resets the pulse
count to 0; the rate is `c * 30` for every count up to 2184, and 600 for 20
pulse edges. -/
theorem tach_rate (e : Env) (s : Device) (hdue : s.rpmNextCalc ≤ e.tick) :
    (10000 / RPM_INTEGRATION_TM) * (6 / RPM_PULSE_REV) = 30
      ∧ (CheckDelays e s).rpmMinute = (s.rpmPluses * 30) % U16
      ∧ (CheckDelays e s).rpmPluses = 0
      ∧ (s.rpmPluses ≤ 2184 → (CheckDelays e s).rpmMinute = s.rpmPluses * 30)
      ∧ (s.rpmPluses = 20 → (CheckDelays e s).rpmMinute = 600) := by
  have hm : (CheckDelays e s).rpmMinute = (s.rpmPluses * 30) % U16 := by
    rw [CheckDelays_fields]
    exact if_pos hdue
  refine ⟨by decide, hm, ?_, ?_, ?_⟩
  · rw [CheckDelays_fields]
    exact if_pos hdue
  · intro hc
    rw [hm]
    exact Nat.mod_eq_of_lt (by simp only [U16]; omega)
  · intro hc
    rw [hm, hc]
    decide

/-- Witness of `tach_rate`: 20 pulse edges counted from the initial state,
the window closed by the tick at 1000. -/
theorem tach_rate_witness :
    (10000 / RPM_INTEGRATION_TM) * (6 / RPM_PULSE_REV) = 30
      ∧ (CheckDelays ⟨1000, false, false⟩ { CmdParserInit 0 with rpmPluses := 20 }).rpmMinute
          = (({ CmdParserInit 0 with rpmPluses := 20 } : Device).rpmPluses * 30) % U16
      ∧ (CheckDelays ⟨1000, false, false⟩ { CmdParserInit 0 with rpmPluses := 20 }).rpmPluses = 0
      ∧ (CheckDelays ⟨1000, false, false⟩ { CmdParserInit 0 with rpmPluses := 20 }).rpmMinute
          = ({ CmdParserInit 0 with rpmPluses := 20 } : Device).rpmPluses * 30
      ∧ (CheckDelays ⟨1000, false, false⟩ { CmdParserInit 0 with rpmPluses := 20 }).rpmMinute
          = 600 :=
  have h := tach_rate ⟨1000, false, false⟩ { CmdParserInit 0 with rpmPluses := 20 } (by decide)
  ⟨h.1, h.2.1, h.2.2.1, h.2.2.2.1 (by decide), h.2.2.2.2 rfl⟩

/-- C14 (counterexample). With 2185 pulse edges counted, the tick that closes
the window sets the rate to 14, not to `2185 * 30 = 65550`. -/
theorem tach_rate_truncation_counterexample :
    ({ CmdParserInit 0 with rpmPluses := 2185 } : Device).rpmNextCalc ≤ 1000
      ∧ (CheckDelays ⟨1000, false, false⟩ { CmdParserInit 0 with rpmPluses := 2185 }).rpmMinute
          = 14
      ∧ (CheckDelays ⟨1000, false, false⟩ { CmdParserInit 0 with rpmPluses := 2185 }).rpmMinute
          ≠ 2185 * 30 := by
  decide

/-- C15 (as amended). A tick at a time `now` with `rpmNextCalc ≤ now` sets the
new window end to `now + RPM_INTEGRATION_TM`, in the 32-bit arithmetic of the
tick counter: the window is restarted from the tick, so the new end is the old
end plus the window length only for a tick exactly at the old end. -/
theorem tach_window_restarts_from_tick (e : Env) (s : Device)
    (hdue : s.rpmNextCalc ≤ e.tick) :
    (CheckDelays e s).rpmNextCalc = (e.tick + RPM_INTEGRATION_TM) % U32
      ∧ (e.tick + RPM_INTEGRATION_TM < U32 →
          (CheckDelays e s).rpmNextCalc = e.tick + RPM_INTEGRATION_TM
            ∧ ((CheckDelays e s).rpmNextCalc = s.rpmNextCalc + RPM_INTEGRATION_TM
                ↔ e.tick = s.rpmNextCalc)) := by
  have hw : (CheckDelays e s).rpmNextCalc = (e.tick + RPM_INTEGRATION_TM) % U32 := by
    rw [CheckDelays_fields]
    exact if_pos hdue
  refine ⟨hw, fun h => ?_⟩
  have hw2 : (CheckDelays e s).rpmNextCalc = e.tick + RPM_INTEGRATION_TM := by
    rw [hw]; exact Nat.mod_eq_of_lt h
  refine ⟨hw2, ?_⟩
  rw [hw2]
  omega

/-- Witness of `tach_window_restarts_from_tick`: the initial state (window end
1000) and a tick at 1005. -/
theorem tach_window_restarts_from_tick_witness :
    (CheckDelays ⟨1005, false, false⟩ (CmdParserInit 0)).rpmNextCalc
        = (1005 + RPM_INTEGRATION_TM) % U32
      ∧ (CheckDelays ⟨1005, false, false⟩ (CmdParserInit 0)).rpmNextCalc
          = 1005 + RPM_INTEGRATION_TM
      ∧ ((CheckDelays ⟨1005, false, false⟩ (CmdParserInit 0)).rpmNextCalc
            = (CmdParserInit 0).rpmNextCalc + RPM_INTEGRATION_TM
          ↔ 1005 = (CmdParserInit 0).rpmNextCalc) :=
  have h := tach_window_restarts_from_tick ⟨1005, false, false⟩ (CmdParserInit 0) (by decide)
  ⟨h.1, (h.2 (by decide)).1, (h.2 (by decide)).2⟩

/-- C15 (counterexample). From the initial state the window end is 1000; the
tick at 1005 closes the window and sets the new window end to 2005, not to
`1000 + 1000 = 2000`. -/
theorem tach_window_fixed_increment_counterexample :
    (CmdParserInit 0).rpmNextCalc = 1000
      ∧ (CmdParserInit 0).rpmNextCalc ≤ 1005
      ∧ (CheckDelays ⟨1005, false, false⟩ (CmdParserInit 0)).rpmNextCalc = 2005
      ∧ (CheckDelays ⟨1005, false, false⟩ (CmdParserInit 0)).rpmNextCalc
          ≠ (CmdParserInit 0).rpmNextCalc + RPM_INTEGRATION_TM := by
  decide

/-! ## Deadline comparisons -/

/-- C17 (as amended). Every deadline comparison of `CheckDelays` is the plain
comparison of the tick with the stored deadline. For an arming time `t` and a
delay `d` whose sum does not wrap (`t + d < 2^32`), with the deadline stored
as `(t + d) mod 2^32`: the armed debounce, pulse, response and tach deadlines
fire at a tick `now` exactly when `t + d ≤ now`; so a tick at a counter value
below `t + d` does not fire and one at or above it does. -/
theorem deadline_comparisons (e : Env) (s : Device) (t d : Nat) (hnw : t + d < U32) :
    (s.buttonState = ButtonCtrl.PRESS_START → s.debounceStop = (t + d) % U32 →
        ((CheckDelays e s).buttonState = ButtonCtrl.PRESSED ↔ t + d ≤ e.tick))
      ∧ (s.buttonState = ButtonCtrl.RELEASE_START → s.debounceStop = (t + d) % U32 →
        ((CheckDelays e s).buttonState = ButtonCtrl.RELEASED ↔ t + d ≤ e.tick))
      ∧ (s.pulseOn = 1 → s.pulseStop = (t + d) % U32 →
        ((CheckDelays e s).pulseOn = 0 ↔ t + d ≤ e.tick))
      ∧ (s.sendTxBuf = 1 → s.sendTxBufStart = (t + d) % U32 →
        ((CheckDelays e s).sendTxBuf = 0 ↔ t + d ≤ e.tick))
      ∧ (s.rpmPluses ≠ 0 → s.rpmNextCalc = (t + d) % U32 →
        ((CheckDelays e s).rpmPluses = 0 ↔ t + d ≤ e.tick)) := by
  have hmod : (t + d) % U32 = t + d := Nat.mod_eq_of_lt hnw
  rw [CheckDelays_fields, hmod]
  refine ⟨fun h1 h2 => ?_, fun h1 h2 => ?_, fun h1 h2 => ?_, fun h1 h2 => ?_,
    fun h1 h2 => ?_⟩
  · simp only [h1, h2, true_and]
    by_cases h : t + d ≤ e.tick <;> simp [h]
  · simp only [h1, h2, true_and]
    by_cases h : t + d ≤ e.tick <;> simp [h]
  · simp only [h1, h2, true_and]
    by_cases h : t + d ≤ e.tick <;> simp [h]
  · simp only [h1, h2, true_and]
    by_cases h : t + d ≤ e.tick <;> simp [h]
  · simp only [h2]
    by_cases h : t + d ≤ e.tick <;> simp [h, h1]

/-- Witness of `deadline_comparisons`: a pulse armed at 0 for 300 ticks and a
tick at 300. -/
theorem deadline_comparisons_witness :
    ((CheckDelays ⟨300, false, false⟩
          { CmdParserInit 0 with pulseOn := 1, pulseStop := 300 }).pulseOn = 0
        ↔ 0 + 300 ≤ (⟨300, false, false⟩ : Env).tick) :=
  (deadline_comparisons ⟨300, false, false⟩
    { CmdParserInit 0 with pulseOn := 1, pulseStop := 300 } 0 300 (by decide)).2.2.1
    (by decide) (by decide)

/-- C17 (counterexample). Armed at tick `2^32 - 5` by `#O!`, the response has
the wrapped send time 5, and the tick one unit later, at `2^32 - 4`, already
transmits it, although fewer than `TX_DELAY` units have passed. Armed at tick
`2^32 - 200` by `#P1!`, the pulse has the deadline `2^32 - 100`; the tick at
counter value 50, which is 250 units after the arming, leaves the pulse armed
and the duty at 100. -/
theorem deadline_wraparound_counterexample :
    (4294967292 + U32 - 4294967291) % U32 = 1
      ∧ (CmdExtractCmd ⟨4294967291, false, false⟩ [35, 79, 33] (CmdParserInit 0)).map
          (fun s => (s.sendTxBuf, s.sendTxBufStart,
            (CheckDelays ⟨4294967292, false, false⟩ s).sent))
          = some (1, 5, [[48, 126]])
      ∧ (50 + U32 - 4294967096) % U32 = 250
      ∧ (CmdExtractCmd ⟨4294967096, false, false⟩ [35, 80, 49, 33] (CmdParserInit 0)).map
          (fun s => (s.pulseOn, s.pulseStop,
            (CheckDelays ⟨50, false, false⟩ s).pulseOn,
            (CheckDelays ⟨50, false, false⟩ s).CCR1))
          = some (1, 4294967196, 1, 100) := by
  decide

/-! ## The invariant of the running device -/

/-- Case analysis on the switch of `CmdParse`: a property of its result holds
as soon as it holds for the result of each of the ten branches. -/
theorem CmdParse.switch_cases (env : Env) (v : Nat) (x : Device)
    (P : Option Device → Prop)
    (hS : P (some { x with CC1P := false, CCR1 := min v 1 * 100 }))
    (hP : P (some { x with
        CC1P := false
        CCR1 := 100
        pulseOn := 1
        pulseStop := (env.tick + max (min v 36000) 1 * 100) % U32 }))
    (hF : P (some { x with CC1P := true, CCR1 := min v 100 }))
    (hW : P (some { x with CC1P := false, CCR1 := min v 100 }))
    (hI : P (NumberToAscii env.tick (if env.tach then 1 else 0) x))
    (hT : P (NumberToAscii env.tick x.rpmMinute x))
    (hO : P (NumberToAscii env.tick x.CCR1 x))
    (hZ : P (some { x with PSC := 480000 / max (min v 50000) 10 - 1, CEN := true }))
    (hA : P (some { (if x.servoMode = 0 then
            { x with
              CCR1 := 0
              CNT := 0
              SR := 0
              PSC := 960 - 1
              ARR := 1000 - 1
              CC1P := true
              CEN := true
              servoMode := 1 }
          else x) with CCR1 := min v 200 }))
    (hD : P (some x)) :
    P (CmdParse.switch env v x) := by
  by_cases c83 : opcode x = 83
  · rw [CmdParse.switch_S env v x c83]; exact hS
  by_cases c80 : opcode x = 80
  · rw [CmdParse.switch_P env v x c80]; exact hP
  by_cases c70 : opcode x = 70
  · rw [CmdParse.switch_F env v x c70]; exact hF
  by_cases c87 : opcode x = 87
  · rw [CmdParse.switch_W env v x c87]; exact hW
  by_cases c65 : opcode x = 65
  · rw [CmdParse.switch_A env v x c65]; exact hA
  have hZe : (if (if v > 50000 then 50000 else v) < 10 then 10
      else (if v > 50000 then 50000 else v)) = max (min v 50000) 10 := by
    split <;> split <;> omega
  unfold CmdParse.switch
  rw [if_neg c83, if_neg c80, if_neg c70, if_neg c87]
  by_cases c73 : opcode x = 73
  · rw [if_pos c73]; exact hI
  rw [if_neg c73]
  by_cases c84 : opcode x = 84
  · rw [if_pos c84]; exact hT
  rw [if_neg c84]
  by_cases c79 : opcode x = 79
  · rw [if_pos c79]; exact hO
  rw [if_neg c79]
  by_cases c90 : opcode x = 90
  · rw [if_pos c90]
    simp only [hZe]
    exact hZ
  rw [if_neg c90, if_neg c65]
  exact hD

theorem Device.safe_iff (s : Device) :
    s.safe ↔ s.cmdBuf.length = 10 ∧ s.txBuf.length = 10 ∧ s.lenCmdBuf ≤ 10
      ∧ s.rpmMinute < 65536 ∧ s.CCR1 ≤ 200 ∧ 1 ≤ s.lastOnState ∧ s.lastOnState ≤ 200
      ∧ s.lenTxBuf ≤ 6 := by
  unfold Device.safe Device.valid
  simp only [CMD_BUF_SIZE, TX_BUF_SIZE, U16]
  constructor
  · rintro ⟨⟨h1, h2, h3, h4, _⟩, h5, h6, h7, h8⟩
    exact ⟨h1, h2, h3, h4, h5, h6, h7, h8⟩
  · rintro ⟨h1, h2, h3, h4, h5, h6, h7, h8⟩
    exact ⟨⟨h1, h2, h3, h4, by omega⟩, h5, h6, h7, h8⟩

theorem Device.safe.valid {s : Device} (h : s.safe) : s.valid := h.1

theorem decimalDigits_length_le (n : Nat) (hn : n ≤ 65535) :
    (decimalDigits n).length ≤ 5 := by
  unfold decimalDigits
  split
  · simp
  · have := digits_length_le 5 n (by omega)
    simpa using this

/-- In a state that satisfies the invariant `NumberToAscii` of a 16-bit value
returns, writes inside the response buffer and keeps the invariant. -/
theorem NumberToAscii_safe (t n : Nat) (x : Device) (h : x.safe) (hn : n ≤ 65535) :
    ∃ s1, NumberToAscii t n x = some s1 ∧ s1.safe
      ∧ s1.cmdBuf = x.cmdBuf ∧ s1.lenCmdBuf = x.lenCmdBuf ∧ s1.cmdFound = x.cmdFound := by
  have hx := (Device.safe_iff x).mp h
  obtain ⟨h1, h2, h3, h4, h5, h6, h7, h8⟩ := hx
  obtain ⟨buf, hbl, _, _, hrun⟩ := NumberToAscii_eq t n x h2 (by omega)
  have hd := decimalDigits_length_le n hn
  refine ⟨_, hrun, ?_, rfl, rfl, rfl⟩
  rw [Device.safe_iff]
  exact ⟨h1, hbl, h3, h4, h5, h6, h7, by show (decimalDigits n).length + 1 ≤ 6; omega⟩

/-- In a state that satisfies the invariant the switch of `CmdParse` returns
and keeps the invariant and the extractor's fields. -/
theorem CmdParse.switch_safe (env : Env) (v : Nat) (x : Device) (h : x.safe) :
    ∃ s1, CmdParse.switch env v x = some s1 ∧ s1.safe
      ∧ s1.cmdBuf = x.cmdBuf ∧ s1.lenCmdBuf = x.lenCmdBuf ∧ s1.cmdFound = x.cmdFound := by
  have hx := (Device.safe_iff x).mp h
  obtain ⟨h1, h2, h3, h4, h5, h6, h7, h8⟩ := hx
  apply CmdParse.switch_cases env v x
    (fun r => ∃ s1, r = some s1 ∧ s1.safe
      ∧ s1.cmdBuf = x.cmdBuf ∧ s1.lenCmdBuf = x.lenCmdBuf ∧ s1.cmdFound = x.cmdFound)
  · refine ⟨_, rfl, ?_, rfl, rfl, rfl⟩
    rw [Device.safe_iff]
    exact ⟨h1, h2, h3, h4, by show min v 1 * 100 ≤ 200; omega, h6, h7, h8⟩
  · refine ⟨_, rfl, ?_, rfl, rfl, rfl⟩
    rw [Device.safe_iff]
    exact ⟨h1, h2, h3, h4, by show 100 ≤ 200; omega, h6, h7, h8⟩
  · refine ⟨_, rfl, ?_, rfl, rfl, rfl⟩
    rw [Device.safe_iff]
    exact ⟨h1, h2, h3, h4, by show min v 100 ≤ 200; omega, h6, h7, h8⟩
  · refine ⟨_, rfl, ?_, rfl, rfl, rfl⟩
    rw [Device.safe_iff]
    exact ⟨h1, h2, h3, h4, by show min v 100 ≤ 200; omega, h6, h7, h8⟩
  · exact NumberToAscii_safe _ _ x h (by split <;> omega)
  · exact NumberToAscii_safe _ _ x h (by omega)
  · exact NumberToAscii_safe _ _ x h (by omega)
  · refine ⟨_, rfl, ?_, rfl, rfl, rfl⟩
    rw [Device.safe_iff]
    exact ⟨h1, h2, h3, h4, h5, h6, h7, h8⟩
  · by_cases hm : x.servoMode = 0
    · simp only [hm, if_true]
      refine ⟨_, rfl, ?_, rfl, rfl, rfl⟩
      rw [Device.safe_iff]
      exact ⟨h1, h2, h3, h4, by show min v 200 ≤ 200; omega, h6, h7, h8⟩
    · simp only [hm, if_false]
      refine ⟨_, rfl, ?_, rfl, rfl, rfl⟩
      rw [Device.safe_iff]
      exact ⟨h1, h2, h3, h4, by show min v 200 ≤ 200; omega, h6, h7, h8⟩
  · exact ⟨x, rfl, h, rfl, rfl, rfl⟩

/-- In a state that satisfies the invariant `CmdParse` returns and keeps the
invariant and the extractor's fields. -/
theorem CmdParse_safe (env : Env) (s : Device) (h : s.safe) :
    ∃ s1, CmdParse env s = some s1 ∧ s1.safe
      ∧ s1.cmdBuf = s.cmdBuf ∧ s1.lenCmdBuf = s.lenCmdBuf ∧ s1.cmdFound = s.cmdFound := by
  have hx := (Device.safe_iff s).mp h
  obtain ⟨h1, h2, h3, h4, h5, h6, h7, h8⟩ := hx
  have hl : s.lenCmdBuf ≤ CMD_BUF_SIZE := h3
  obtain ⟨f1, f2, f3, _, _⟩ := CmdParse.servoExit_frame s
  have hsafe : Device.safe { CmdParse.servoExit s with
      parsed := s.parsed ++ [(opcode s, argument s)] } := by
    rw [Device.safe_iff]
    rcases CmdParse.servoExit_cases s with e | e <;> rw [e]
    · exact ⟨h1, h2, h3, h4, h5, h6, h7, h8⟩
    · exact ⟨h1, h2, h3, h4, by show 0 ≤ 200; omega, h6, h7, h8⟩
  obtain ⟨s1, hrun, hs1, g1, g2, g3⟩ := CmdParse.switch_safe env (argument s) _ hsafe
  refine ⟨s1, ?_, hs1, ?_, ?_, ?_⟩
  · rw [CmdParse_eq env s hl]; exact hrun
  · rw [g1]; exact f1
  · rw [g2]; exact f2
  · rw [g3]; exact f3

/-- The loop body of `CmdExtractCmd` is its dispatch followed by the rest. -/
theorem CmdExtractCmd.byte_eq (env : Env) (b : Nat) (s : Device) :
    CmdExtractCmd.byte env b s
      = (if b = CMD_END ∧ s.cmdFound = 1 then
          (CmdParse env s).bind
            (fun s1 => CmdExtractCmd.afterDispatch b { s1 with cmdFound := 0 })
        else CmdExtractCmd.afterDispatch b s) := by
  unfold CmdExtractCmd.byte CmdExtractCmd.afterDispatch
  by_cases h : b = CMD_END ∧ s.cmdFound = 1
  · rw [if_pos h, if_pos h]
    cases CmdParse env s <;> rfl
  · rw [if_neg h, if_neg h]

/-- The loop body after the dispatch: with the buffered length within the
capacity it returns, so it never writes outside the buffer; it keeps the
length within the capacity and changes nothing but the extractor's fields. -/
theorem CmdExtractCmd.afterDispatch_ok (b : Nat) (s : Device)
    (hl : s.lenCmdBuf ≤ CMD_BUF_SIZE) :
    ∃ buf n f, buf.length = s.cmdBuf.length ∧ n ≤ CMD_BUF_SIZE
      ∧ CmdExtractCmd.afterDispatch b s
          = some { s with cmdBuf := buf, lenCmdBuf := n, cmdFound := f } := by
  unfold CmdExtractCmd.afterDispatch
  by_cases h10 : s.lenCmdBuf = CMD_BUF_SIZE
  · by_cases hb : b = CMD_START
    · exact ⟨s.cmdBuf, 0, 1, rfl, by omega, by simp [h10, hb]⟩
    · exact ⟨s.cmdBuf, 0, 0, rfl, by omega, by simp [h10, hb]⟩
  · have hlt : s.lenCmdBuf < CMD_BUF_SIZE := by omega
    by_cases hf : s.cmdFound = 1
    · by_cases hb : b = CMD_START
      · exact ⟨s.cmdBuf.set s.lenCmdBuf b, 0, 1, by simp, by omega,
          by simp [h10, hf, hlt, hb]⟩
      · exact ⟨s.cmdBuf.set s.lenCmdBuf b, s.lenCmdBuf + 1, s.cmdFound, by simp, by omega,
          by simp [h10, hf, hlt, hb]⟩
    · by_cases hb : b = CMD_START
      · exact ⟨s.cmdBuf, 0, 1, rfl, by omega, by simp [h10, hf, hb]⟩
      · exact ⟨s.cmdBuf, s.lenCmdBuf, s.cmdFound, rfl, hl, by simp [h10, hf, hb]⟩

theorem Device.safe_extractor (s : Device) (buf : List Nat) (n f : Nat) (h : s.safe)
    (hb : buf.length = s.cmdBuf.length) (hn : n ≤ CMD_BUF_SIZE) :
    Device.safe { s with cmdBuf := buf, lenCmdBuf := n, cmdFound := f } := by
  rw [Device.safe_iff] at h ⊢
  obtain ⟨h1, h2, h3, h4, h5, h6, h7, h8⟩ := h
  exact ⟨by rw [← h1]; exact hb, h2, hn, h4, h5, h6, h7, h8⟩

/-- One byte, in a state that satisfies the invariant: the loop body returns
and keeps the invariant. -/
theorem CmdExtractCmd.byte_safe (env : Env) (b : Nat) (s : Device) (h : s.safe) :
    ∃ s1, CmdExtractCmd.byte env b s = some s1 ∧ s1.safe := by
  rw [CmdExtractCmd.byte_eq]
  by_cases hd : b = CMD_END ∧ s.cmdFound = 1
  · rw [if_pos hd]
    obtain ⟨s1, hrun, hs1, _, g2, _⟩ := CmdParse_safe env s h
    have hs1' : Device.safe { s1 with cmdFound := 0 } := by
      rw [Device.safe_iff] at hs1 ⊢
      exact hs1
    obtain ⟨buf, n, f, hb, hn, htail⟩ :=
      CmdExtractCmd.afterDispatch_ok b { s1 with cmdFound := 0 }
        ((Device.safe_iff _).mp hs1).2.2.1
    rw [hrun]
    exact ⟨_, htail, Device.safe_extractor _ buf n f hs1' hb hn⟩
  · rw [if_neg hd]
    obtain ⟨buf, n, f, hb, hn, htail⟩ :=
      CmdExtractCmd.afterDispatch_ok b s ((Device.safe_iff _).mp h).2.2.1
    exact ⟨_, htail, Device.safe_extractor _ buf n f h hb hn⟩

theorem run_safe (ebs : List (Env × Nat)) (s : Device) (h : s.safe) :
    ∃ s1, run ebs s = some s1 ∧ s1.safe := by
  induction ebs generalizing s with
  | nil => exact ⟨s, rfl, h⟩
  | cons eb rest ih =>
    obtain ⟨s1, hstep, hs1⟩ := CmdExtractCmd.byte_safe eb.1 eb.2 s h
    obtain ⟨s2, hrun, hs2⟩ := ih s1 hs1
    exact ⟨s2, by simp only [run, hstep]; exact hrun, hs2⟩

theorem CheckButton_safe (e : Env) (s : Device) (h : s.safe) : (CheckButton e s).safe := by
  rw [Device.safe_iff] at h ⊢
  obtain ⟨h1, h2, h3, h4, h5, h6, h7, h8⟩ := h
  unfold CheckButton
  simp only [U16]
  split_ifs <;> (simp_all; try omega)

theorem CheckDelays_safe (e : Env) (s : Device) (h : s.safe) : (CheckDelays e s).safe := by
  rw [Device.safe_iff] at h ⊢
  obtain ⟨h1, h2, h3, h4, h5, h6, h7, h8⟩ := h
  rw [CheckDelays_fields]
  refine ⟨h1, h2, h3, ?_, ?_, h6, h7, h8⟩
  · show (if s.rpmNextCalc ≤ e.tick then (s.rpmPluses * 30) % U16 else s.rpmMinute) < 65536
    split
    · exact Nat.mod_lt _ (by decide)
    · exact h4
  · show (if s.pulseOn = 1 ∧ s.pulseStop ≤ e.tick then 0 else s.CCR1) ≤ 200
    split <;> omega

theorem TachIncrement_safe (s : Device) (h : s.safe) : (TachIncrement s).safe := by
  rw [Device.safe_iff] at h ⊢
  exact h

theorem CmdParserInit_safe (t0 : Nat) : (CmdParserInit t0).safe := by
  rw [Device.safe_iff]
  simp [CmdParserInit]

theorem Event.apply_safe (ev : Event) (s : Device) (h : s.safe) :
    ∃ s1, ev.apply s = some s1 ∧ s1.safe := by
  cases ev with
  | rx env bytes =>
    show ∃ s1, CmdExtractCmd env bytes s = some s1 ∧ s1.safe
    rw [CmdExtractCmd_eq_run]
    exact run_safe _ s h
  | tick env => exact ⟨_, rfl, CheckDelays_safe env s h⟩
  | button env => exact ⟨_, rfl, CheckButton_safe env s h⟩
  | tach => exact ⟨_, rfl, TachIncrement_safe s h⟩

/-- Every sequence of calls of entry points, from a state that satisfies the
invariant, returns and ends in a state that satisfies it. -/
theorem exec_safe (evs : List Event) (s : Device) (h : s.safe) :
    ∃ s1, exec evs s = some s1 ∧ s1.safe := by
  induction evs generalizing s with
  | nil => exact ⟨s, rfl, h⟩
  | cons ev rest ih =>
    obtain ⟨s1, hstep, hs1⟩ := Event.apply_safe ev s h
    obtain ⟨s2, hrun, hs2⟩ := ih s1 hs1
    exact ⟨s2, by simp only [exec, hstep]; exact hrun, hs2⟩

/-! ## Reachable states: the claims -/

theorem queryValue_le (env : Env) (q : Nat) (s : Device) (h : s.safe) :
    queryValue env q s ≤ 65535 := by
  rw [Device.safe_iff] at h
  obtain ⟨_, _, _, h4, h5, _⟩ := h
  unfold queryValue
  split_ifs <;> omega

/-- C20. Every sequence of calls of entry points (bytes delivered to
`CmdExtractCmd`, `CheckDelays` ticks, `CheckButton` calls, tach edges) from the
initial state returns, so no write leaves `cmdBuf` or `txBuf`, and ends in a
state with duty at most 200, `lastOnState` in `[1, 200]` and a response length
of at most six, within `TX_BUF_SIZE`; there, for each query opcode, the value
reported has at most 5 digits and `NumberToAscii` of it returns with the
digits and the terminator in the buffer and a length within `TX_BUF_SIZE`. -/
theorem reachable_duty_and_response_bounds (t0 : Nat) (evs : List Event) :
    ∃ s, exec evs (CmdParserInit t0) = some s
      ∧ s.CCR1 ≤ 200 ∧ 1 ≤ s.lastOnState ∧ s.lastOnState ≤ 200
      ∧ s.lenTxBuf ≤ 6 ∧ s.lenTxBuf ≤ TX_BUF_SIZE
      ∧ ∀ (env : Env) (q : Nat),
          (decimalDigits (queryValue env q s)).length ≤ 5
            ∧ ∃ s1, NumberToAscii env.tick (queryValue env q s) s = some s1
              ∧ s1.txBuf.take s1.lenTxBuf = decimalDigits (queryValue env q s) ++ [TX_DELIM]
              ∧ s1.lenTxBuf = (decimalDigits (queryValue env q s)).length + 1
              ∧ s1.lenTxBuf ≤ TX_BUF_SIZE := by
  obtain ⟨s, hrun, hs⟩ := exec_safe evs (CmdParserInit t0) (CmdParserInit_safe t0)
  have hx := (Device.safe_iff s).mp hs
  obtain ⟨h1, h2, h3, h4, h5, h6, h7, h8⟩ := hx
  refine ⟨s, hrun, h5, h6, h7, h8, by simp only [TX_BUF_SIZE]; omega, ?_⟩
  intro env q
  have hq := queryValue_le env q s hs
  have hd := decimalDigits_length_le _ hq
  obtain ⟨buf, _, htake, _, hnum⟩ :=
    NumberToAscii_eq env.tick (queryValue env q s) s h2 (by omega)
  exact ⟨hd, _, hnum, htake, rfl,
    by show (decimalDigits (queryValue env q s)).length + 1 ≤ TX_BUF_SIZE
       simp only [TX_BUF_SIZE]; omega⟩

/-- C12. Every sequence of calls of entry points from the initial state
returns; in the state it ends in, when the button state is Released and the
pin is asserted, `CheckButton` moves to PressStart and (a) with a duty above 0
stores that duty in `lastOnState` and sets the duty to 0, (b) with duty 0
sets the duty to the stored `lastOnState`, which is not 0. -/
theorem button_press_toggles (t0 : Nat) (evs : List Event) (e : Env) :
    (∃ s, exec evs (CmdParserInit t0) = some s)
      ∧ ∀ s, exec evs (CmdParserInit t0) = some s →
          s.buttonState = ButtonCtrl.RELEASED → e.manSw = true →
          (CheckButton e s).buttonState = ButtonCtrl.PRESS_START
            ∧ (0 < s.CCR1 →
                (CheckButton e s).lastOnState = s.CCR1 ∧ (CheckButton e s).CCR1 = 0)
            ∧ (s.CCR1 = 0 →
                (CheckButton e s).CCR1 = s.lastOnState ∧ 0 < (CheckButton e s).CCR1
                  ∧ (CheckButton e s).lastOnState = s.lastOnState) := by
  obtain ⟨s0, hrun, hs⟩ := exec_safe evs (CmdParserInit t0) (CmdParserInit_safe t0)
  refine ⟨⟨s0, hrun⟩, ?_⟩
  intro s hs' hrel hpin
  rw [hrun] at hs'
  cases hs'
  have hx := (Device.safe_iff s0).mp hs
  obtain ⟨h1, h2, h3, h4, h5, h6, h7, h8⟩ := hx
  have hmod : s0.CCR1 % U16 = s0.CCR1 := Nat.mod_eq_of_lt (by simp only [U16]; omega)
  unfold CheckButton
  simp only [hrel, hpin, and_self, if_true, hmod]
  by_cases hc : 0 < s0.CCR1
  · simp [hc]
    omega
  · have hz : s0.CCR1 = 0 := by omega
    simp [hz]
    omega

/-- Witness of `button_press_toggles`: the initial state itself (duty 0,
`lastOnState` 100) and a press. -/
theorem button_press_toggles_witness :
    (CheckButton ⟨5, true, false⟩ (CmdParserInit 0)).buttonState = ButtonCtrl.PRESS_START
      ∧ (CheckButton ⟨5, true, false⟩ (CmdParserInit 0)).CCR1 = (CmdParserInit 0).lastOnState
      ∧ 0 < (CheckButton ⟨5, true, false⟩ (CmdParserInit 0)).CCR1 :=
  have h := (button_press_toggles 0 [] ⟨5, true, false⟩).2 (CmdParserInit 0) rfl rfl rfl
  ⟨h.1, (h.2.2 rfl).1, (h.2.2 rfl).2.1⟩

/-! ## Payload buffer bounds -/

theorem NumberToAscii_lenCmdBuf (t n : Nat) (s s1 : Device)
    (h : NumberToAscii t n s = some s1) : s1.lenCmdBuf = s.lenCmdBuf := by
  unfold NumberToAscii at h
  simp only [] at h
  split at h
  · exact absurd h (by simp)
  · split at h
    · simp only [Option.some.injEq] at h
      rw [← h]
    · exact absurd h (by simp)

/-- Whenever `CmdParse` returns, the buffered length is as before. -/
theorem CmdParse_lenCmdBuf (env : Env) (s s1 : Device) (hl : s.lenCmdBuf ≤ CMD_BUF_SIZE)
    (h : CmdParse env s = some s1) : s1.lenCmdBuf = s.lenCmdBuf := by
  rw [CmdParse_eq env s hl] at h
  have key : ∀ (v : Nat) (x : Device) (r : Device),
      CmdParse.switch env v x = some r → r.lenCmdBuf = x.lenCmdBuf := by
    intro v x
    apply CmdParse.switch_cases env v x
      (fun o => ∀ r : Device, o = some r → r.lenCmdBuf = x.lenCmdBuf)
    · intro r hr; simp only [Option.some.injEq] at hr; rw [← hr]
    · intro r hr; simp only [Option.some.injEq] at hr; rw [← hr]
    · intro r hr; simp only [Option.some.injEq] at hr; rw [← hr]
    · intro r hr; simp only [Option.some.injEq] at hr; rw [← hr]
    · intro r hr; exact NumberToAscii_lenCmdBuf _ _ _ _ hr
    · intro r hr; exact NumberToAscii_lenCmdBuf _ _ _ _ hr
    · intro r hr; exact NumberToAscii_lenCmdBuf _ _ _ _ hr
    · intro r hr; simp only [Option.some.injEq] at hr; rw [← hr]
    · intro r hr
      simp only [Option.some.injEq] at hr
      rw [← hr]
      show (if x.servoMode = 0 then _ else x).lenCmdBuf = x.lenCmdBuf
      split <;> rfl
    · intro r hr; simp only [Option.some.injEq] at hr; rw [← hr]
  rw [key _ _ _ h]
  exact (CmdParse.servoExit_frame s).2.1

/-- One byte, with the buffered length within the capacity: if the loop body
returns, the length is still within the capacity; it fails to return only when
the dispatcher it calls does, never at the write into the payload buffer. -/
theorem CmdExtractCmd.byte_bounds (env : Env) (b : Nat) (s : Device)
    (hl : s.lenCmdBuf ≤ CMD_BUF_SIZE) :
    (∀ s1, CmdExtractCmd.byte env b s = some s1 → s1.lenCmdBuf ≤ CMD_BUF_SIZE)
      ∧ (CmdExtractCmd.byte env b s = none →
          b = CMD_END ∧ s.cmdFound = 1 ∧ CmdParse env s = none) := by
  rw [CmdExtractCmd.byte_eq]
  by_cases hd : b = CMD_END ∧ s.cmdFound = 1
  · rw [if_pos hd]
    cases hp : CmdParse env s with
    | none => exact ⟨fun s1 h => absurd h (by simp), fun _ => ⟨hd.1, hd.2, rfl⟩⟩
    | some s2 =>
      have hl2 : s2.lenCmdBuf ≤ CMD_BUF_SIZE := by
        rw [CmdParse_lenCmdBuf env s s2 hl hp]; exact hl
      obtain ⟨buf, n, f, _, hn, htail⟩ :=
        CmdExtractCmd.afterDispatch_ok b { s2 with cmdFound := 0 } hl2
      simp only [Option.bind, htail]
      exact ⟨fun s1 h => by simp only [Option.some.injEq] at h; rw [← h]; exact hn,
        fun h => absurd h (by simp)⟩
  · rw [if_neg hd]
    obtain ⟨buf, n, f, _, hn, htail⟩ := CmdExtractCmd.afterDispatch_ok b s hl
    rw [htail]
    exact ⟨fun s1 h => by simp only [Option.some.injEq] at h; rw [← h]; exact hn,
      fun h => absurd h (by simp)⟩

/-- One byte, in a well-formed state: the loop body returns and keeps the
state well-formed. -/
theorem CmdExtractCmd.byte_valid (env : Env) (b : Nat) (s : Device) (h : s.valid) :
    ∃ s1, CmdExtractCmd.byte env b s = some s1 ∧ s1.valid := by
  have keep : ∀ (x : Device) (buf : List Nat) (n f : Nat), x.valid →
      buf.length = x.cmdBuf.length → n ≤ CMD_BUF_SIZE →
      Device.valid { x with cmdBuf := buf, lenCmdBuf := n, cmdFound := f } := by
    intro x buf n f hx hb hn
    obtain ⟨h1, h2, _, h4, h5⟩ := hx
    exact ⟨by rw [← h1]; exact hb, h2, hn, h4, h5⟩
  rw [CmdExtractCmd.byte_eq]
  by_cases hd : b = CMD_END ∧ s.cmdFound = 1
  · rw [if_pos hd]
    obtain ⟨s1, hrun, hs1, _⟩ := CmdParse_valid env s h
    have hs1' : Device.valid { s1 with cmdFound := 0 } := hs1
    obtain ⟨buf, n, f, hb, hn, htail⟩ :=
      CmdExtractCmd.afterDispatch_ok b { s1 with cmdFound := 0 } hs1.2.2.1
    rw [hrun]
    exact ⟨_, htail, keep _ buf n f hs1' hb hn⟩
  · rw [if_neg hd]
    obtain ⟨buf, n, f, hb, hn, htail⟩ := CmdExtractCmd.afterDispatch_ok b s h.2.2.1
    exact ⟨_, htail, keep _ buf n f h hb hn⟩

theorem run_valid (ebs : List (Env × Nat)) (s : Device) (h : s.valid) :
    ∃ s1, run ebs s = some s1 ∧ s1.valid := by
  induction ebs generalizing s with
  | nil => exact ⟨s, rfl, h⟩
  | cons eb rest ih =>
    obtain ⟨s1, hstep, hs1⟩ := CmdExtractCmd.byte_valid eb.1 eb.2 s h
    obtain ⟨s2, hrun, hs2⟩ := ih s1 hs1
    exact ⟨s2, by simp only [run, hstep]; exact hrun, hs2⟩

/-- C18. For every byte and every state with `lenCmdBuf ≤ CMD_BUF_SIZE`: when
the loop body of `CmdExtractCmd` returns, `lenCmdBuf ≤ CMD_BUF_SIZE` still
holds, and it can fail to return only through the dispatcher it calls, never
at the write into the payload buffer, whose index is below `CMD_BUF_SIZE`.
From every well-formed state, every stream, byte by byte and in every
chunking, is processed to the end with `lenCmdBuf ≤ CMD_BUF_SIZE`. -/
theorem payload_length_within_capacity :
    (∀ (env : Env) (b : Nat) (s : Device), s.lenCmdBuf ≤ CMD_BUF_SIZE →
        (∀ s1, CmdExtractCmd.byte env b s = some s1 → s1.lenCmdBuf ≤ CMD_BUF_SIZE)
          ∧ (CmdExtractCmd.byte env b s = none →
              b = CMD_END ∧ s.cmdFound = 1 ∧ CmdParse env s = none))
      ∧ (∀ (s : Device), s.valid →
          (∀ (ebs : List (Env × Nat)),
              ∃ s1, run ebs s = some s1 ∧ s1.lenCmdBuf ≤ CMD_BUF_SIZE)
            ∧ ∀ (chunks : List (Env × List Nat)),
                ∃ s1, feed chunks s = some s1 ∧ s1.lenCmdBuf ≤ CMD_BUF_SIZE) := by
  refine ⟨fun env b s hl => CmdExtractCmd.byte_bounds env b s hl, fun s hv => ⟨?_, ?_⟩⟩
  · intro ebs
    obtain ⟨s1, hrun, hs1⟩ := run_valid ebs s hv
    exact ⟨s1, hrun, hs1.2.2.1⟩
  · intro chunks
    obtain ⟨s1, hrun, hs1⟩ := run_valid (tagged chunks) s hv
    exact ⟨s1, by rw [feed_eq_run]; exact hrun, hs1.2.2.1⟩

/-- Witness of `payload_length_within_capacity`: twelve bytes after a start
delimiter, in two chunks, delivered to the initial state. -/
theorem payload_length_within_capacity_witness :
    ∃ s1, feed [(⟨0, false, false⟩, [35, 65, 65, 65, 65, 65, 65]),
          (⟨1, false, false⟩, [65, 65, 65, 65, 65, 65])] (CmdParserInit 0) = some s1
      ∧ s1.lenCmdBuf ≤ CMD_BUF_SIZE :=
  (payload_length_within_capacity.2 (CmdParserInit 0) (by decide)).2
    [(⟨0, false, false⟩, [35, 65, 65, 65, 65, 65, 65]),
      (⟨1, false, false⟩, [65, 65, 65, 65, 65, 65])]

/-! ## Numeric argument: no wraparound -/

theorem allDigits_of_initial_segment (p alfa : List Nat) (hp : p <+: alfa) (h : allDigits alfa) :
    allDigits p :=
  fun d hd => h d (hp.subset hd)

/-- A digit string of at most 9 bytes: no prefix has a decimal value of `2^32`
or more, and `AsciiToNumber` returns the decimal value, saturated at 65535. -/
theorem AsciiToNumber_exact (alfa : List Nat) (hd : allDigits alfa) (hl : alfa.length ≤ 9) :
    (∀ p, p <+: alfa → decimalValue p < U32)
      ∧ AsciiToNumber alfa = min (decimalValue alfa) 65535 := by
  constructor
  · intro p hp
    exact decimalValue_lt_U32 p (allDigits_of_initial_segment p alfa hp hd)
      (Nat.le_trans hp.length_le hl)
  · cases alfa with
    | nil => rfl
    | cons d rest =>
      rw [AsciiToNumber_digits _ (by simp) hd,
        Nat.mod_eq_of_lt (decimalValue_lt_U32 _ hd hl)]

/-- C19. From every well-formed state and after every stream, so at every
point where the extractor can invoke `CmdParse`: the bytes handed to
`AsciiToNumber` are at most `CMD_BUF_SIZE - 1 = 9`; when they are all digits,
no prefix of them has a decimal value of `2^32` or more, so the 32-bit
accumulator does not wrap, and the parsed argument is exactly the decimal
value saturated at 65535. The same holds for every digit string of at most 9
bytes. -/
theorem argument_exact_without_wraparound (s0 : Device) (hv : s0.valid)
    (ebs : List (Env × Nat)) :
    (∃ s, run ebs s0 = some s
        ∧ (argBytes s).length ≤ CMD_BUF_SIZE - 1
        ∧ (allDigits (argBytes s) →
            (∀ p, p <+: argBytes s → decimalValue p < U32)
              ∧ argument s = min (decimalValue (argBytes s)) 65535))
      ∧ ∀ (alfa : List Nat), allDigits alfa → alfa.length ≤ 9 →
          (∀ p, p <+: alfa → decimalValue p < U32)
            ∧ AsciiToNumber alfa = min (decimalValue alfa) 65535 := by
  refine ⟨?_, fun alfa hd hl => AsciiToNumber_exact alfa hd hl⟩
  obtain ⟨s, hrun, h1, _, h3, _, _⟩ := run_valid ebs s0 hv
  have hlen : (argBytes s).length ≤ 9 := by
    unfold argBytes
    simp only [List.length_take, List.length_drop]
    simp only [CMD_BUF_SIZE] at h1 h3
    omega
  refine ⟨s, hrun, hlen, fun hd => ?_⟩
  obtain ⟨hp, hval⟩ := AsciiToNumber_exact (argBytes s) hd hlen
  refine ⟨hp, ?_⟩
  unfold argument
  by_cases hgt : s.lenCmdBuf > 1
  · rw [if_pos hgt]
    exact hval
  · rw [if_neg hgt]
    have he : argBytes s = [] := by
      unfold argBytes
      have : s.lenCmdBuf - 1 = 0 := by omega
      rw [this]
      simp
    rw [he]
    rfl

/-- Witness of `argument_exact_without_wraparound`: the bytes `#P123456789`
delivered to the initial state. -/
theorem argument_exact_without_wraparound_witness :
    (∃ s, run ([35, 80, 49, 50, 51, 52, 53, 54, 55, 56, 57].map
            (fun b => ((⟨0, false, false⟩ : Env), b))) (CmdParserInit 0) = some s
        ∧ (argBytes s).length ≤ CMD_BUF_SIZE - 1
        ∧ (allDigits (argBytes s) →
            (∀ p, p <+: argBytes s → decimalValue p < U32)
              ∧ argument s = min (decimalValue (argBytes s)) 65535))
      ∧ AsciiToNumber [49, 50, 51, 52, 53, 54, 55, 56, 57]
          = min (decimalValue [49, 50, 51, 52, 53, 54, 55, 56, 57]) 65535 :=
  have h := argument_exact_without_wraparound (CmdParserInit 0) (by decide)
    ([35, 80, 49, 50, 51, 52, 53, 54, 55, 56, 57].map
      (fun b => ((⟨0, false, false⟩ : Env), b)))
  ⟨h.1, (h.2 [49, 50, 51, 52, 53, 54, 55, 56, 57] (by decide) (by decide)).2⟩

/-! ## Deferred response -/

theorem CmdParse.switch_query (env : Env) (v q : Nat) (x : Device)
    (hq : q = 73 ∨ q = 84 ∨ q = 79) (h : opcode x = q) :
    CmdParse.switch env v x = NumberToAscii env.tick (queryValue env q x) x := by
  have nS : ¬ opcode x = 83 := by omega
  have nP : ¬ opcode x = 80 := by omega
  have nF : ¬ opcode x = 70 := by omega
  have nW : ¬ opcode x = 87 := by omega
  unfold CmdParse.switch queryValue
  rw [if_neg nS, if_neg nP, if_neg nF, if_neg nW]
  rcases hq with rfl | rfl | rfl
  · rw [if_pos h]
    simp
  · have nI : ¬ opcode x = 73 := by omega
    rw [if_neg nI, if_pos h]
    simp
  · have nI : ¬ opcode x = 73 := by omega
    have nT : ¬ opcode x = 84 := by omega
    rw [if_neg nI, if_neg nT, if_pos h]
    simp

theorem queryValue_lt (env : Env) (q : Nat) (s : Device) (hv : s.valid) :
    queryValue env q s < 10 ^ 9 := by
  obtain ⟨_, _, _, h4, h5⟩ := hv
  simp only [U16] at h4
  unfold queryValue
  split_ifs <;> omega

/-- A query frame (`'I'`, `'T'` or `'O'`) in one transport call: the response
buffer holds the decimal digits of the value and the terminator, the response
is armed with the send time `tick + TX_DELAY`, nothing is transmitted yet. -/
theorem CmdExtractCmd_query (env : Env) (s : Device) (hv : s.valid) (q : Nat)
    (hq : q = 73 ∨ q = 84 ∨ q = 79) (a : List Nat)
    (ha : a.length ≤ 9) (hnd : ∀ b ∈ a, b ≠ CMD_END ∧ b ≠ CMD_START) :
    ∃ s1, CmdExtractCmd env (CMD_START :: q :: a ++ [CMD_END]) s = some s1
      ∧ s1.valid
      ∧ s1.sendTxBuf = 1 ∧ s1.sendTxBufStart = (env.tick + TX_DELAY) % U32
      ∧ s1.txBuf.take s1.lenTxBuf = decimalDigits (queryValue env q s) ++ [TX_DELIM]
      ∧ s1.sent = s.sent := by
  have hq1 : q ≠ CMD_START := by rcases hq with rfl | rfl | rfl <;> decide
  have hq2 : q ≠ CMD_END := by rcases hq with rfl | rfl | rfl <;> decide
  have hq3 : ¬ (q = 83 ∨ q = 80 ∨ q = 70 ∨ q = 87 ∨ q = 90) := by
    rcases hq with rfl | rfl | rfl <;> decide
  obtain ⟨buf, hbl, hop, harg, hrun⟩ := CmdExtractCmd_frame env s hv q a hq1 hq2 ha hnd
  obtain ⟨h1, h2, h3, h4, h5⟩ := hv
  have hl : ({ s with cmdBuf := buf, lenCmdBuf := a.length + 1, cmdFound := 1 } : Device).lenCmdBuf
      ≤ CMD_BUF_SIZE := by simp only [CMD_BUF_SIZE]; omega
  have hqv : queryValue env q
      { s with cmdBuf := buf, lenCmdBuf := a.length + 1, cmdFound := 1,
               parsed := s.parsed ++ [(q, AsciiToNumber a)] } = queryValue env q s := rfl
  rw [CmdParse_eq env _ hl, CmdParse.servoExit_other _ (by rw [hop]; exact hq3), hop, harg,
    CmdParse.switch_query env _ q _ hq (by exact hop), hqv] at hrun
  obtain ⟨tb, htl, htake, hk, hnum⟩ :=
    NumberToAscii_eq env.tick (queryValue env q s)
      { s with cmdBuf := buf, lenCmdBuf := a.length + 1, cmdFound := 1,
               parsed := s.parsed ++ [(q, AsciiToNumber a)] } h2
      (queryValue_lt env q s ⟨h1, h2, h3, h4, h5⟩)
  rw [hnum] at hrun
  refine ⟨_, hrun, ⟨hbl, htl, ?_, h4, h5⟩, rfl, rfl, htake, rfl⟩
  show (if a.length + 1 = CMD_BUF_SIZE then 0 else a.length + 1) ≤ CMD_BUF_SIZE
  split <;> simp only [CMD_BUF_SIZE] <;> omega

theorem CheckDelays_valid (e : Env) (s : Device) (h : s.valid) : (CheckDelays e s).valid := by
  obtain ⟨h1, h2, h3, h4, h5⟩ := h
  rw [CheckDelays_fields]
  refine ⟨h1, h2, h3, ?_, ?_⟩
  · show (if s.rpmNextCalc ≤ e.tick then (s.rpmPluses * 30) % U16 else s.rpmMinute) < U16
    split
    · exact Nat.mod_lt _ (by decide)
    · exact h4
  · show (if s.pulseOn = 1 ∧ s.pulseStop ≤ e.tick then 0 else s.CCR1) < 10 ^ 9
    split
    · norm_num
    · exact h5

theorem ticks_valid (es : List Env) (s : Device) (h : s.valid) : (ticks es s).valid := by
  induction es generalizing s with
  | nil => exact h
  | cons e rest ih => exact ih _ (CheckDelays_valid e s h)

/-- A tick before the send time leaves an armed response armed and transmits
nothing. -/
theorem CheckDelays_tx_early (e : Env) (x : Device)
    (hon : x.sendTxBuf = 1) (hearly : e.tick < x.sendTxBufStart) :
    (CheckDelays e x).sendTxBuf = 1 ∧ (CheckDelays e x).sendTxBufStart = x.sendTxBufStart
      ∧ (CheckDelays e x).txBuf = x.txBuf ∧ (CheckDelays e x).lenTxBuf = x.lenTxBuf
      ∧ (CheckDelays e x).sent = x.sent := by
  have hng : ¬ (x.sendTxBuf = 1 ∧ x.sendTxBufStart ≤ e.tick) := by omega
  rw [CheckDelays_fields]
  refine ⟨?_, rfl, rfl, rfl, ?_⟩
  · show (if x.sendTxBuf = 1 ∧ x.sendTxBufStart ≤ e.tick then 0 else x.sendTxBuf) = 1
    rw [if_neg hng, hon]
  · show (if x.sendTxBuf = 1 ∧ x.sendTxBufStart ≤ e.tick then _ else x.sent) = x.sent
    rw [if_neg hng]

/-- A tick at or after the send time of an armed response transmits the
buffer once and disarms. -/
theorem CheckDelays_tx_due (e : Env) (x : Device)
    (hon : x.sendTxBuf = 1) (hdue : x.sendTxBufStart ≤ e.tick) :
    (CheckDelays e x).sendTxBuf = 0
      ∧ (CheckDelays e x).sent = x.sent ++ [x.txBuf.take x.lenTxBuf] := by
  rw [CheckDelays_fields]
  constructor
  · show (if x.sendTxBuf = 1 ∧ x.sendTxBufStart ≤ e.tick then 0 else x.sendTxBuf) = 0
    rw [if_pos ⟨hon, hdue⟩]
  · show (if x.sendTxBuf = 1 ∧ x.sendTxBufStart ≤ e.tick then _ else x.sent) = _
    rw [if_pos ⟨hon, hdue⟩]

/-- A tick without an armed response transmits nothing. -/
theorem CheckDelays_tx_off (e : Env) (x : Device) (hoff : x.sendTxBuf = 0) :
    (CheckDelays e x).sendTxBuf = 0 ∧ (CheckDelays e x).sent = x.sent := by
  have hng : ¬ (x.sendTxBuf = 1 ∧ x.sendTxBufStart ≤ e.tick) := by omega
  rw [CheckDelays_fields]
  constructor
  · show (if x.sendTxBuf = 1 ∧ x.sendTxBufStart ≤ e.tick then 0 else x.sendTxBuf) = 0
    rw [if_neg hng, hoff]
  · show (if x.sendTxBuf = 1 ∧ x.sendTxBufStart ≤ e.tick then _ else x.sent) = x.sent
    rw [if_neg hng]

theorem ticks_tx_early (es : List Env) (x : Device)
    (hon : x.sendTxBuf = 1) (hearly : ∀ e ∈ es, e.tick < x.sendTxBufStart) :
    (ticks es x).sendTxBuf = 1 ∧ (ticks es x).sendTxBufStart = x.sendTxBufStart
      ∧ (ticks es x).txBuf = x.txBuf ∧ (ticks es x).lenTxBuf = x.lenTxBuf
      ∧ (ticks es x).sent = x.sent := by
  induction es generalizing x with
  | nil => exact ⟨hon, rfl, rfl, rfl, rfl⟩
  | cons e rest ih =>
    obtain ⟨h1, h2, h3, h4, h5⟩ :=
      CheckDelays_tx_early e x hon (hearly e (List.mem_cons_self _ _))
    obtain ⟨g1, g2, g3, g4, g5⟩ := ih (CheckDelays e x) h1
      (fun y hy => by rw [h2]; exact hearly y (List.mem_cons_of_mem _ hy))
    exact ⟨g1, g2.trans h2, g3.trans h3, g4.trans h4, g5.trans h5⟩

theorem ticks_tx_off (es : List Env) (x : Device) (hoff : x.sendTxBuf = 0) :
    (ticks es x).sendTxBuf = 0 ∧ (ticks es x).sent = x.sent := by
  induction es generalizing x with
  | nil => exact ⟨hoff, rfl⟩
  | cons e rest ih =>
    obtain ⟨h1, h2⟩ := CheckDelays_tx_off e x hoff
    obtain ⟨g1, g2⟩ := ih (CheckDelays e x) h1
    exact ⟨g1, g2.trans h2⟩

/-- A query dispatched at a tick `t` with `t + TX_DELAY` inside the counter,
followed by ticks: nothing is transmitted by ticks before `t + TX_DELAY`; the
first tick at or after it transmits the digits and the terminator, once; no
later tick transmits. -/
theorem query_response (env : Env) (s : Device) (hv : s.valid) (q : Nat)
    (hq : q = 73 ∨ q = 84 ∨ q = 79) (a : List Nat)
    (ha : a.length ≤ 9) (hnd : ∀ b ∈ a, b ≠ CMD_END ∧ b ≠ CMD_START)
    (ht : env.tick + TX_DELAY < U32) :
    ∃ s1, CmdExtractCmd env (CMD_START :: q :: a ++ [CMD_END]) s = some s1
      ∧ s1.sendTxBuf = 1 ∧ s1.sendTxBufStart = env.tick + TX_DELAY ∧ s1.sent = s.sent
      ∧ ∀ (early : List Env), (∀ e ∈ early, e.tick < env.tick + TX_DELAY) →
          (ticks early s1).valid
            ∧ (ticks early s1).sendTxBuf = 1 ∧ (ticks early s1).sent = s.sent
            ∧ ∀ (e1 : Env), env.tick + TX_DELAY ≤ e1.tick →
                (CheckDelays e1 (ticks early s1)).sent
                    = s.sent ++ [decimalDigits (queryValue env q s) ++ [TX_DELIM]]
                  ∧ (CheckDelays e1 (ticks early s1)).sendTxBuf = 0
                  ∧ ∀ (later : List Env),
                      (ticks later (CheckDelays e1 (ticks early s1))).sent
                        = s.sent ++ [decimalDigits (queryValue env q s) ++ [TX_DELIM]] := by
  obtain ⟨s1, hrun, hv1, hon, hstart, hbuf, hsent⟩ := CmdExtractCmd_query env s hv q hq a ha hnd
  have hstart' : s1.sendTxBufStart = env.tick + TX_DELAY := by
    rw [hstart]; exact Nat.mod_eq_of_lt ht
  refine ⟨s1, hrun, hon, hstart', hsent, ?_⟩
  intro early hearly
  obtain ⟨a1, a2, a3, a4, a5⟩ :=
    ticks_tx_early early s1 hon (by rw [hstart']; exact hearly)
  refine ⟨ticks_valid early s1 hv1, a1, a5.trans hsent, ?_⟩
  intro e1 he1
  obtain ⟨b1, b2⟩ :=
    CheckDelays_tx_due e1 (ticks early s1) a1 (by rw [a2, hstart']; exact he1)
  have b3 : (CheckDelays e1 (ticks early s1)).sent
      = s.sent ++ [decimalDigits (queryValue env q s) ++ [TX_DELIM]] := by
    rw [b2, a3, a4, a5, hsent, hbuf]
  refine ⟨b3, b1, ?_⟩
  intro later
  obtain ⟨_, c2⟩ := ticks_tx_off later _ b1
  rw [c2, b3]

/-- C16. From every well-formed state, for every query frame (`I`, `T` or
`O`) dispatched at a tick `t` with `t + TX_DELAY` inside the 32-bit counter:
the response is armed with send time `t + 10`; no sequence of `CheckDelays`
ticks at times below `t + 10` transmits anything; the first tick at or after
`t + 10` calls the transmit primitive exactly once, with the decimal digits of
the value followed by `'~'`, and disarms; no later tick transmits. If, after
ticks below `t + 10`, a second query is dispatched at a tick `t2`, the same
holds for it from the unchanged transmit log: only the second response is
ever transmitted. -/
theorem response_transmitted_once_after_delay (env : Env) (s : Device) (hv : s.valid)
    (q : Nat) (hq : q = 73 ∨ q = 84 ∨ q = 79) (a : List Nat)
    (ha : a.length ≤ 9) (hnd : ∀ b ∈ a, b ≠ CMD_END ∧ b ≠ CMD_START)
    (ht : env.tick + TX_DELAY < U32) :
    ∃ s1, CmdExtractCmd env (CMD_START :: q :: a ++ [CMD_END]) s = some s1
      ∧ s1.sendTxBuf = 1 ∧ s1.sendTxBufStart = env.tick + 10 ∧ s1.sent = s.sent
      ∧ ∀ (early : List Env), (∀ e ∈ early, e.tick < env.tick + 10) →
          (ticks early s1).sendTxBuf = 1 ∧ (ticks early s1).sent = s.sent
            ∧ (∀ (e1 : Env), env.tick + 10 ≤ e1.tick →
                (CheckDelays e1 (ticks early s1)).sent
                    = s.sent ++ [decimalDigits (queryValue env q s) ++ [TX_DELIM]]
                  ∧ (CheckDelays e1 (ticks early s1)).sendTxBuf = 0
                  ∧ ∀ (later : List Env),
                      (ticks later (CheckDelays e1 (ticks early s1))).sent
                        = s.sent ++ [decimalDigits (queryValue env q s) ++ [TX_DELIM]])
            ∧ ∀ (env2 : Env) (q2 : Nat) (a2 : List Nat),
                (q2 = 73 ∨ q2 = 84 ∨ q2 = 79) → a2.length ≤ 9 →
                (∀ b ∈ a2, b ≠ CMD_END ∧ b ≠ CMD_START) → env2.tick + TX_DELAY < U32 →
                ∃ s2, CmdExtractCmd env2 (CMD_START :: q2 :: a2 ++ [CMD_END])
                      (ticks early s1) = some s2
                  ∧ s2.sent = s.sent
                  ∧ ∀ (early2 : List Env), (∀ e ∈ early2, e.tick < env2.tick + 10) →
                      (ticks early2 s2).sent = s.sent
                        ∧ ∀ (e2 : Env), env2.tick + 10 ≤ e2.tick →
                            ∀ (later : List Env),
                              (ticks later (CheckDelays e2 (ticks early2 s2))).sent
                                = s.sent ++ [decimalDigits
                                    (queryValue env2 q2 (ticks early s1)) ++ [TX_DELIM]] := by
  obtain ⟨s1, hrun, hon, hstart, hsent, hrest⟩ := query_response env s hv q hq a ha hnd ht
  refine ⟨s1, hrun, hon, hstart, hsent, ?_⟩
  intro early hearly
  obtain ⟨xv, xon, xsent, xdue⟩ := hrest early hearly
  refine ⟨xon, xsent, xdue, ?_⟩
  intro env2 q2 a2 hq2 ha2 hnd2 ht2
  obtain ⟨s2, hrun2, _, _, hsent2, hrest2⟩ :=
    query_response env2 (ticks early s1) xv q2 hq2 a2 ha2 hnd2 ht2
  refine ⟨s2, hrun2, hsent2.trans xsent, ?_⟩
  intro early2 hearly2
  obtain ⟨_, _, ysent, ydue⟩ := hrest2 early2 hearly2
  refine ⟨ysent.trans xsent, ?_⟩
  intro e2 he2 later
  rw [(ydue e2 he2).2.2 later, xsent]

/-- Witness of `response_transmitted_once_after_delay`: the frame `#O!` at
tick 100 from the initial state. -/
theorem response_transmitted_once_after_delay_witness :
    ∃ s1, CmdExtractCmd ⟨100, false, false⟩ (CMD_START :: 79 :: [] ++ [CMD_END])
          (CmdParserInit 0) = some s1
      ∧ s1.sendTxBuf = 1 ∧ s1.sendTxBufStart = 100 + 10 ∧ s1.sent = (CmdParserInit 0).sent :=
  match response_transmitted_once_after_delay ⟨100, false, false⟩ (CmdParserInit 0)
      (by decide) 79 (by decide) [] (by decide) (by decide) (by decide) with
  | ⟨s1, h1, h2, h3, h4, _⟩ => ⟨s1, h1, h2, h3, h4⟩

/-! ## Button state machine -/

/-- What `CheckButton` does: the press in the state Released, the release in
the state Pressed, nothing otherwise. -/
theorem CheckButton_eq (e : Env) (x : Device) :
    CheckButton e x
      = (if e.manSw = true ∧ x.buttonState = ButtonCtrl.RELEASED then
          { x with
            lastOnState := if x.CCR1 > 0 then x.CCR1 % U16 else x.lastOnState
            CCR1 := if x.CCR1 > 0 then 0 else x.lastOnState
            buttonState := ButtonCtrl.PRESS_START
            debounceStop := (e.tick + DEBOUNCE_TIME) % U32 }
        else if e.manSw = false ∧ x.buttonState = ButtonCtrl.PRESSED then
          { x with
            buttonState := ButtonCtrl.RELEASE_START
            debounceStop := (e.tick + DEBOUNCE_TIME) % U32 }
        else x) := by
  unfold CheckButton
  by_cases h1 : e.manSw = true ∧ x.buttonState = ButtonCtrl.RELEASED
  · simp only [h1, and_self, if_true]
    by_cases hc : x.CCR1 > 0 <;> simp [hc, h1.1]
  · simp only [h1, if_false]

/-- In the states PressStart and ReleaseStart `CheckButton` changes nothing. -/
theorem CheckButton_debouncing (e : Env) (x : Device)
    (h : x.buttonState = ButtonCtrl.PRESS_START ∨ x.buttonState = ButtonCtrl.RELEASE_START) :
    CheckButton e x = x := by
  rw [CheckButton_eq]
  rcases h with h | h <;> simp [h]

/-- `CheckButton` toggles only in the state Released. -/
theorem CheckButton_no_toggle (e : Env) (x : Device)
    (h : x.buttonState ≠ ButtonCtrl.RELEASED) :
    (CheckButton e x).CCR1 = x.CCR1 ∧ (CheckButton e x).lastOnState = x.lastOnState := by
  rw [CheckButton_eq, if_neg (fun c => h c.2)]
  split <;> exact ⟨rfl, rfl⟩

/-- The press: from Released with the pin asserted to PressStart, the debounce
deadline set from the tick. -/
theorem CheckButton_press (e : Env) (x : Device)
    (hrel : x.buttonState = ButtonCtrl.RELEASED) (hpin : e.manSw = true) :
    (CheckButton e x).buttonState = ButtonCtrl.PRESS_START
      ∧ (CheckButton e x).debounceStop = (e.tick + DEBOUNCE_TIME) % U32 := by
  rw [CheckButton_eq, if_pos ⟨hpin, hrel⟩]
  exact ⟨rfl, rfl⟩

/-- What `CheckButton` does to the button state. -/
theorem CheckButton_state (e : Env) (x : Device) :
    (x.buttonState = ButtonCtrl.PRESS_START → CheckButton e x = x)
      ∧ (x.buttonState = ButtonCtrl.RELEASE_START → CheckButton e x = x)
      ∧ (x.buttonState = ButtonCtrl.PRESSED →
          (CheckButton e x).buttonState = ButtonCtrl.PRESSED
            ∨ ((CheckButton e x).buttonState = ButtonCtrl.RELEASE_START
                ∧ e.manSw = false
                ∧ (CheckButton e x).debounceStop = (e.tick + DEBOUNCE_TIME) % U32)) := by
  refine ⟨fun h => CheckButton_debouncing e x (Or.inl h),
    fun h => CheckButton_debouncing e x (Or.inr h), fun h => ?_⟩
  have hne : ¬ (e.manSw = true ∧ x.buttonState = ButtonCtrl.RELEASED) := by
    rw [h]; exact fun c => absurd c.2 (by decide)
  rw [CheckButton_eq, if_neg hne]
  by_cases hp : e.manSw = false
  · right
    rw [if_pos ⟨hp, h⟩]
    exact ⟨rfl, hp, rfl⟩
  · left
    rw [if_neg (fun c => hp c.1)]
    exact h

/-- In the state PressStart a tick before the debounce deadline changes
neither the button state, nor the deadline, nor `lastOnState`; it changes the
duty only by ending an armed pulse. -/
theorem CheckDelays_debouncing (e : Env) (x : Device)
    (hst : x.buttonState = ButtonCtrl.PRESS_START) (hearly : e.tick < x.debounceStop) :
    (CheckDelays e x).buttonState = ButtonCtrl.PRESS_START
      ∧ (CheckDelays e x).debounceStop = x.debounceStop
      ∧ (CheckDelays e x).lastOnState = x.lastOnState
      ∧ (x.pulseOn ≠ 1 → (CheckDelays e x).pulseOn ≠ 1 ∧ (CheckDelays e x).CCR1 = x.CCR1) := by
  rw [CheckDelays_fields]
  have hng : ¬ (x.debounceStop ≤ e.tick) := by omega
  refine ⟨?_, rfl, rfl, fun hp => ⟨?_, ?_⟩⟩
  · simp [hst, hng]
  · show (if x.pulseOn = 1 ∧ x.pulseStop ≤ e.tick then 0 else x.pulseOn) ≠ 1
    rw [if_neg (fun c => hp c.1)]; exact hp
  · show (if x.pulseOn = 1 ∧ x.pulseStop ≤ e.tick then 0 else x.CCR1) = x.CCR1
    rw [if_neg (fun c => hp c.1)]

/-- What `CheckDelays` does to the button state. -/
theorem CheckDelays_state (e : Env) (x : Device) :
    (CheckDelays e x).debounceStop = x.debounceStop
      ∧ (CheckDelays e x).lastOnState = x.lastOnState
      ∧ (x.buttonState = ButtonCtrl.PRESS_START →
          (CheckDelays e x).buttonState = ButtonCtrl.PRESS_START
            ∨ ((CheckDelays e x).buttonState = ButtonCtrl.PRESSED ∧ x.debounceStop ≤ e.tick))
      ∧ (x.buttonState = ButtonCtrl.PRESSED →
          (CheckDelays e x).buttonState = ButtonCtrl.PRESSED)
      ∧ (x.buttonState = ButtonCtrl.RELEASE_START →
          (CheckDelays e x).buttonState = ButtonCtrl.RELEASE_START
            ∨ ((CheckDelays e x).buttonState = ButtonCtrl.RELEASED
                ∧ x.debounceStop ≤ e.tick)) := by
  rw [CheckDelays_fields]
  refine ⟨rfl, rfl, fun h => ?_, fun h => ?_, fun h => ?_⟩
  · by_cases hd : x.debounceStop ≤ e.tick
    · right; simp [h, hd]
    · left; simp [h, hd]
  · simp [h]
  · by_cases hd : x.debounceStop ≤ e.tick
    · right; simp [h, hd]
    · left; simp [h, hd]

/-! ### The extractor and the dispatcher leave the button alone -/

theorem NumberToAscii_button (t n : Nat) (s s1 : Device)
    (h : NumberToAscii t n s = some s1) :
    s1.buttonState = s.buttonState ∧ s1.debounceStop = s.debounceStop := by
  unfold NumberToAscii at h
  simp only [] at h
  split at h
  · exact absurd h (by simp)
  · split at h
    · simp only [Option.some.injEq] at h
      rw [← h]
      exact ⟨rfl, rfl⟩
    · exact absurd h (by simp)

theorem CmdParse_none_of_overlong (env : Env) (s : Device)
    (h : ¬ s.lenCmdBuf ≤ CMD_BUF_SIZE) : CmdParse env s = none := by
  have hg : (CmdParse.servoExit s).lenCmdBuf > CMD_BUF_SIZE := by
    rw [(CmdParse.servoExit_frame s).2.1]; omega
  unfold CmdParse
  simp only [hg, if_true]

theorem CmdParse_button (env : Env) (s s1 : Device) (h : CmdParse env s = some s1) :
    s1.buttonState = s.buttonState ∧ s1.debounceStop = s.debounceStop := by
  have hl : s.lenCmdBuf ≤ CMD_BUF_SIZE := by
    by_contra hc
    rw [CmdParse_none_of_overlong env s hc] at h
    exact absurd h (by simp)
  rw [CmdParse_eq env s hl] at h
  have key : ∀ (v : Nat) (x : Device) (r : Device),
      CmdParse.switch env v x = some r →
      r.buttonState = x.buttonState ∧ r.debounceStop = x.debounceStop := by
    intro v x
    apply CmdParse.switch_cases env v x
      (fun o => ∀ r : Device, o = some r →
        r.buttonState = x.buttonState ∧ r.debounceStop = x.debounceStop)
    · intro r hr; simp only [Option.some.injEq] at hr; rw [← hr]; exact ⟨rfl, rfl⟩
    · intro r hr; simp only [Option.some.injEq] at hr; rw [← hr]; exact ⟨rfl, rfl⟩
    · intro r hr; simp only [Option.some.injEq] at hr; rw [← hr]; exact ⟨rfl, rfl⟩
    · intro r hr; simp only [Option.some.injEq] at hr; rw [← hr]; exact ⟨rfl, rfl⟩
    · intro r hr; exact NumberToAscii_button _ _ _ _ hr
    · intro r hr; exact NumberToAscii_button _ _ _ _ hr
    · intro r hr; exact NumberToAscii_button _ _ _ _ hr
    · intro r hr; simp only [Option.some.injEq] at hr; rw [← hr]; exact ⟨rfl, rfl⟩
    · intro r hr
      simp only [Option.some.injEq] at hr
      rw [← hr]
      show (if x.servoMode = 0 then _ else x).buttonState = x.buttonState
        ∧ (if x.servoMode = 0 then _ else x).debounceStop = x.debounceStop
      split <;> exact ⟨rfl, rfl⟩
    · intro r hr; simp only [Option.some.injEq] at hr; rw [← hr]; exact ⟨rfl, rfl⟩
  obtain ⟨k1, k2⟩ := key _ _ _ h
  have e : CmdParse.servoExit s = s ∨ CmdParse.servoExit s = _ := CmdParse.servoExit_cases s
  rcases e with e | e
  · rw [e] at k1 k2; exact ⟨k1, k2⟩
  · rw [e] at k1 k2; exact ⟨k1, k2⟩

theorem CmdExtractCmd.afterDispatch_button (b : Nat) (s s1 : Device)
    (h : CmdExtractCmd.afterDispatch b s = some s1) :
    s1.buttonState = s.buttonState ∧ s1.debounceStop = s.debounceStop := by
  unfold CmdExtractCmd.afterDispatch at h
  by_cases h10 : s.lenCmdBuf = CMD_BUF_SIZE
  · by_cases hb : b = CMD_START
    · simp [h10, hb] at h; rw [← h]; exact ⟨rfl, rfl⟩
    · simp [h10, hb] at h; rw [← h]; exact ⟨rfl, rfl⟩
  · by_cases hf : s.cmdFound = 1
    · by_cases hlt : s.lenCmdBuf < CMD_BUF_SIZE
      · by_cases hb : b = CMD_START
        · simp [h10, hf, hlt, hb] at h; rw [← h]; exact ⟨rfl, rfl⟩
        · simp [h10, hf, hlt, hb] at h; rw [← h]; exact ⟨rfl, rfl⟩
      · simp [h10, hf, hlt] at h
    · by_cases hb : b = CMD_START
      · simp [h10, hf, hb] at h; rw [← h]; exact ⟨rfl, rfl⟩
      · simp [h10, hf, hb] at h; rw [← h]; exact ⟨rfl, rfl⟩

theorem CmdExtractCmd.byte_button (env : Env) (b : Nat) (s s1 : Device)
    (h : CmdExtractCmd.byte env b s = some s1) :
    s1.buttonState = s.buttonState ∧ s1.debounceStop = s.debounceStop := by
  rw [CmdExtractCmd.byte_eq] at h
  by_cases hd : b = CMD_END ∧ s.cmdFound = 1
  · rw [if_pos hd] at h
    cases hp : CmdParse env s with
    | none => rw [hp] at h; exact absurd h (by simp)
    | some s2 =>
      rw [hp] at h
      obtain ⟨k1, k2⟩ := CmdParse_button env s s2 hp
      obtain ⟨g1, g2⟩ := CmdExtractCmd.afterDispatch_button b _ s1 h
      exact ⟨g1.trans k1, g2.trans k2⟩
  · rw [if_neg hd] at h
    exact CmdExtractCmd.afterDispatch_button b s s1 h

theorem CmdExtractCmd_button (env : Env) (bytes : List Nat) (s s1 : Device)
    (h : CmdExtractCmd env bytes s = some s1) :
    s1.buttonState = s.buttonState ∧ s1.debounceStop = s.debounceStop := by
  induction bytes generalizing s with
  | nil =>
    simp only [CmdExtractCmd, Option.some.injEq] at h
    rw [← h]; exact ⟨rfl, rfl⟩
  | cons b rest ih =>
    simp only [CmdExtractCmd] at h
    cases hb : CmdExtractCmd.byte env b s with
    | none => rw [hb] at h; exact absurd h (by simp)
    | some s2 =>
      rw [hb] at h
      obtain ⟨k1, k2⟩ := CmdExtractCmd.byte_button env b s s2 hb
      obtain ⟨g1, g2⟩ := ih s2 h
      exact ⟨g1.trans k1, g2.trans k2⟩

/-! ### The debounce window -/

/-- In the state PressStart, calls of `CheckButton` and `CheckDelays` at times
before the debounce deadline: the `CheckButton` calls change nothing, so the
result is that of the `CheckDelays` calls alone; the button state, the
deadline and `lastOnState` stay, and so does the duty unless a pulse is
armed. -/
theorem exec_debounce_window (lo : Nat) (evs : List Event) :
    ∀ (x : Device), x.buttonState = ButtonCtrl.PRESS_START →
      (∀ ev ∈ evs, ev.buttonOrTickIn lo x.debounceStop) →
      exec evs x = some (ticks (tickEnvs evs) x)
        ∧ (ticks (tickEnvs evs) x).buttonState = ButtonCtrl.PRESS_START
        ∧ (ticks (tickEnvs evs) x).debounceStop = x.debounceStop
        ∧ (ticks (tickEnvs evs) x).lastOnState = x.lastOnState
        ∧ (x.pulseOn ≠ 1 → (ticks (tickEnvs evs) x).CCR1 = x.CCR1) := by
  induction evs with
  | nil =>
    intro x hst _
    exact ⟨rfl, hst, rfl, rfl, fun _ => rfl⟩
  | cons ev rest ih =>
    intro x hst hwin
    have hev := hwin ev (List.mem_cons_self _ _)
    have hrest : ∀ y ∈ rest, y.buttonOrTickIn lo x.debounceStop :=
      fun y hy => hwin y (List.mem_cons_of_mem _ hy)
    cases ev with
    | rx env bytes => exact absurd hev (by simp [Event.buttonOrTickIn])
    | tach => exact absurd hev (by simp [Event.buttonOrTickIn])
    | button e =>
      have hid : CheckButton e x = x := CheckButton_debouncing e x (Or.inl hst)
      obtain ⟨i1, i2, i3, i4, i5⟩ := ih x hst hrest
      refine ⟨?_, i2, i3, i4, i5⟩
      show (match (Event.button e).apply x with
        | none => none
        | some s => exec rest s) = _
      simp only [Event.apply, hid]
      exact i1
    | tick e =>
      have hlt : e.tick < x.debounceStop := by
        simp only [Event.buttonOrTickIn] at hev
        exact hev.2
      obtain ⟨d1, d2, d3, d4⟩ := CheckDelays_debouncing e x hst hlt
      obtain ⟨i1, i2, i3, i4, i5⟩ := ih (CheckDelays e x) d1 (by rw [d2]; exact hrest)
      refine ⟨?_, i2, i3.trans d2, i4.trans d3, fun hp => ?_⟩
      · show (match (Event.tick e).apply x with
          | none => none
          | some s => exec rest s) = _
        simp only [Event.apply]
        exact i1
      · exact (i5 (d4 hp).1).trans (d4 hp).2

/-- The order of the button states under any call of an entry point: from
PressStart only on to Pressed, by a tick at or after the deadline; from
Pressed only on to ReleaseStart, by `CheckButton` with the pin deasserted,
which sets a new deadline a debounce time after its tick; from ReleaseStart
only on to Released, by a tick at or after that deadline. -/
theorem Event.apply_button_order (ev : Event) (x x1 : Device) (h : ev.apply x = some x1) :
    (x.buttonState = ButtonCtrl.PRESS_START →
        x1.buttonState = ButtonCtrl.PRESS_START
          ∨ (x1.buttonState = ButtonCtrl.PRESSED
              ∧ ∃ e, ev = Event.tick e ∧ x.debounceStop ≤ e.tick))
      ∧ (x.buttonState = ButtonCtrl.PRESSED →
        x1.buttonState = ButtonCtrl.PRESSED
          ∨ (x1.buttonState = ButtonCtrl.RELEASE_START
              ∧ ∃ e, ev = Event.button e ∧ e.manSw = false
                ∧ x1.debounceStop = (e.tick + DEBOUNCE_TIME) % U32))
      ∧ (x.buttonState = ButtonCtrl.RELEASE_START →
        (x1.buttonState = ButtonCtrl.RELEASE_START ∧ x1.debounceStop = x.debounceStop)
          ∨ (x1.buttonState = ButtonCtrl.RELEASED
              ∧ ∃ e, ev = Event.tick e ∧ x.debounceStop ≤ e.tick)) := by
  cases ev with
  | rx env bytes =>
    obtain ⟨k1, k2⟩ := CmdExtractCmd_button env bytes x x1 h
    exact ⟨fun hs => Or.inl (k1.trans hs), fun hs => Or.inl (k1.trans hs),
      fun hs => Or.inl ⟨k1.trans hs, k2⟩⟩
  | tach =>
    simp only [Event.apply, Option.some.injEq] at h
    rw [← h]
    exact ⟨fun hs => Or.inl hs, fun hs => Or.inl hs, fun hs => Or.inl ⟨hs, rfl⟩⟩
  | button e =>
    simp only [Event.apply, Option.some.injEq] at h
    rw [← h]
    obtain ⟨c1, c2, c3⟩ := CheckButton_state e x
    refine ⟨fun hs => Or.inl ?_, fun hs => ?_, fun hs => Or.inl ?_⟩
    · rw [c1 hs]; exact hs
    · rcases c3 hs with c | ⟨c, hp, hd⟩
      · exact Or.inl c
      · exact Or.inr ⟨c, e, rfl, hp, hd⟩
    · rw [c2 hs]; exact ⟨hs, rfl⟩
  | tick e =>
    simp only [Event.apply, Option.some.injEq] at h
    rw [← h]
    obtain ⟨d0, _, d1, d2, d3⟩ := CheckDelays_state e x
    refine ⟨fun hs => ?_, fun hs => Or.inl (d2 hs), fun hs => ?_⟩
    · rcases d1 hs with c | ⟨c, hd⟩
      · exact Or.inl c
      · exact Or.inr ⟨c, e, rfl, hd⟩
    · rcases d3 hs with c | ⟨c, hd⟩
      · exact Or.inl ⟨c, d0⟩
      · exact Or.inr ⟨c, e, rfl, hd⟩

/-- C13. After a press at a tick `t` with `t + DEBOUNCE_TIME` inside the
counter (state Released, pin asserted), the state is PressStart with the
deadline `t + DEBOUNCE_TIME`. For every sequence of `CheckButton` and
`CheckDelays` calls at times in `[t, t + DEBOUNCE_TIME)`, whatever the pin
levels: the `CheckButton` calls change nothing (the result is that of the
`CheckDelays` calls alone), the state stays PressStart, `lastOnState` stays,
and the duty stays unless a pulse is armed. `CheckButton` changes the duty or
`lastOnState` only in the state Released, and under every call of an entry
point the button state moves only from PressStart to Pressed (tick at or after
the deadline), from Pressed to ReleaseStart (pin deasserted, new deadline a
debounce time later) and from ReleaseStart to Released (tick at or after that
deadline). -/
theorem debounce_single_toggle (e0 : Env) (s : Device)
    (hrel : s.buttonState = ButtonCtrl.RELEASED) (hpin : e0.manSw = true)
    (ht : e0.tick + DEBOUNCE_TIME < U32) :
    (CheckButton e0 s).buttonState = ButtonCtrl.PRESS_START
      ∧ (CheckButton e0 s).debounceStop = e0.tick + DEBOUNCE_TIME
      ∧ (∀ (evs : List Event),
          (∀ ev ∈ evs, ev.buttonOrTickIn e0.tick (e0.tick + DEBOUNCE_TIME)) →
          exec evs (CheckButton e0 s) = some (ticks (tickEnvs evs) (CheckButton e0 s))
            ∧ (ticks (tickEnvs evs) (CheckButton e0 s)).buttonState = ButtonCtrl.PRESS_START
            ∧ (ticks (tickEnvs evs) (CheckButton e0 s)).lastOnState
                = (CheckButton e0 s).lastOnState
            ∧ ((CheckButton e0 s).pulseOn ≠ 1 →
                (ticks (tickEnvs evs) (CheckButton e0 s)).CCR1 = (CheckButton e0 s).CCR1))
      ∧ (∀ (e : Env) (x : Device), x.buttonState ≠ ButtonCtrl.RELEASED →
          (CheckButton e x).CCR1 = x.CCR1 ∧ (CheckButton e x).lastOnState = x.lastOnState)
      ∧ ∀ (ev : Event) (x x1 : Device), ev.apply x = some x1 →
          (x.buttonState = ButtonCtrl.PRESS_START →
              x1.buttonState = ButtonCtrl.PRESS_START
                ∨ (x1.buttonState = ButtonCtrl.PRESSED
                    ∧ ∃ e, ev = Event.tick e ∧ x.debounceStop ≤ e.tick))
            ∧ (x.buttonState = ButtonCtrl.PRESSED →
              x1.buttonState = ButtonCtrl.PRESSED
                ∨ (x1.buttonState = ButtonCtrl.RELEASE_START
                    ∧ ∃ e, ev = Event.button e ∧ e.manSw = false
                      ∧ x1.debounceStop = (e.tick + DEBOUNCE_TIME) % U32))
            ∧ (x.buttonState = ButtonCtrl.RELEASE_START →
              (x1.buttonState = ButtonCtrl.RELEASE_START ∧ x1.debounceStop = x.debounceStop)
                ∨ (x1.buttonState = ButtonCtrl.RELEASED
                    ∧ ∃ e, ev = Event.tick e ∧ x.debounceStop ≤ e.tick)) := by
  obtain ⟨p1, p2⟩ := CheckButton_press e0 s hrel hpin
  have p3 : (CheckButton e0 s).debounceStop = e0.tick + DEBOUNCE_TIME := by
    rw [p2]; exact Nat.mod_eq_of_lt ht
  refine ⟨p1, p3, ?_, fun e x hx => CheckButton_no_toggle e x hx,
    fun ev x x1 h => Event.apply_button_order ev x x1 h⟩
  intro evs hwin
  obtain ⟨w1, w2, _, w4, w5⟩ :=
    exec_debounce_window e0.tick evs (CheckButton e0 s) p1 (by rw [p3]; exact hwin)
  exact ⟨w1, w2, w4, w5⟩

/-- Witness of `debounce_single_toggle`: a press at tick 5 in the initial
state, then a second press at 10 and a tick at 20. -/
theorem debounce_single_toggle_witness :
    (CheckButton ⟨5, true, false⟩ (CmdParserInit 0)).buttonState = ButtonCtrl.PRESS_START
      ∧ (CheckButton ⟨5, true, false⟩ (CmdParserInit 0)).debounceStop = 5 + DEBOUNCE_TIME
      ∧ exec [Event.button ⟨10, true, false⟩, Event.tick ⟨20, false, false⟩]
            (CheckButton ⟨5, true, false⟩ (CmdParserInit 0))
          = some (ticks (tickEnvs [Event.button ⟨10, true, false⟩,
              Event.tick ⟨20, false, false⟩]) (CheckButton ⟨5, true, false⟩ (CmdParserInit 0)))
      ∧ (ticks (tickEnvs [Event.button ⟨10, true, false⟩, Event.tick ⟨20, false, false⟩])
            (CheckButton ⟨5, true, false⟩ (CmdParserInit 0))).buttonState
          = ButtonCtrl.PRESS_START :=
  have h := debounce_single_toggle ⟨5, true, false⟩ (CmdParserInit 0) rfl rfl (by decide)
  have hw := h.2.2.1 [Event.button ⟨10, true, false⟩, Event.tick ⟨20, false, false⟩]
    (by
      intro ev hev
      simp only [List.mem_cons, List.mem_singleton, List.not_mem_nil, or_false] at hev
      rcases hev with rfl | rfl <;> exact ⟨by decide, by decide⟩)
  ⟨h.1, h.2.1, hw.1, hw.2.1⟩

/-! ## Pulse output: armed only by the opcode `'P'` -/

/-- The pulse deactivation does not recur: the frame `#P1!` at tick 0 from the
initial state, a tick at 100 (the deadline), the frame `#S1!` switching the
output on again, and a tick at 201 leave the duty at 100 with the pulse
disarmed. -/
theorem pulse_then_switch_on_trace :
    (exec [Event.rx ⟨0, false, false⟩ [35, 80, 49, 33], Event.tick ⟨100, false, false⟩,
        Event.rx ⟨150, false, false⟩ [35, 83, 49, 33], Event.tick ⟨201, false, false⟩]
      (CmdParserInit 0)).map (fun d => (d.CCR1, d.pulseOn, d.parsed))
      = some (100, 0, [(80, 1), (83, 1)]) := by
  decide

end UsbRelay
